import Mathlib

/-!
Verification of the jsondb document store (`src/jsondb/model.py`) against its
natural-language specification.

The Python `Database` class is shallowly embedded: Python values that can flow
into the dynamically-typed operations are modelled by the inductive `PyVal`;
mutating methods on `Database` become functions `Database → ... → Database ×
Option PyErr`, returning the state of the object after the call together with
the exception raised, if any (Python mutates in place, so a raised exception
can leave a partially mutated object — the returned state captures exactly
that).  Read-only methods return `Except PyErr`.  Python `set[str]` values are
modelled as duplicate-free `List String` (first-insertion order as the
canonical iteration order), Python `dict` as an association list in insertion
order.
-/

set_option maxHeartbeats 1000000

/-- A dynamically-typed Python value, as far as the jsondb operations inspect
one: the four scalar types accepted as attribute values, plus `list` as a
representative non-scalar (JSON-serializable) value and `none` for `None`.
Floats are opaque: only their `repr` string is carried, since no operation of
the store computes with them.  No operation looks inside a list value either,
so list payloads are modelled as integer lists. -/
inductive PyVal where
  | str : String → PyVal
  | int : Int → PyVal
  | float : String → PyVal
  | bool : Bool → PyVal
  | list : List Int → PyVal
  | none : PyVal
deriving DecidableEq, Repr

/-- The exceptions raised by the modelled operations, with their identifying
payload.  `typeMismatch` is Python `TypeError` (message kept), `invalidTag` the
`ValueError` naming the offending tag raised by `Database.set`, `indexNotFound`
the `IndexError` for an out-of-range index, `notFound` the `ValueError` raised
by `Database.id`, and `badFormatSpec` the `ValueError` a Python f-string raises
on an invalid format specifier (multi-character fill). -/
inductive PyErr where
  | typeMismatch : String → PyErr
  | invalidTag : String → PyErr
  | indexNotFound : Int → PyErr
  | notFound : String → PyErr
  | badFormatSpec : PyErr
deriving DecidableEq, Repr

/-- One data entry of the database: the tuple `(data, tags, attrs)` appended by
`Database.set` (`model.py` line 305).  `tags` models a Python `set[str]`
(duplicate-free list), `attrs` a `dict[str, PyVal]` in insertion order. -/
structure Record where
  data : String
  tags : List String
  attrs : List (String × PyVal)
deriving DecidableEq, Repr

instance : Inhabited Record := ⟨⟨"", [], []⟩⟩

/-- The in-memory state of a `Database` object: the `_tags` vocabulary set,
the two flags and the `_data` record list (`model.py` lines 61-65). -/
structure Database where
  tags : List String
  enforce_tags : Bool
  backups_enabled : Bool
  data : List Record
deriving DecidableEq, Repr

/-- Python `set.add`: a no-op on an element already present, otherwise the
element joins the set (appended in our canonical first-insertion order). -/
def pySetAdd (l : List String) (s : String) : List String :=
  if s ∈ l then l else l ++ [s]

/-- Python `set(iterable)` on a list of strings: de-duplication keeping the
first occurrence (canonical order for our set model). -/
def pySet (l : List String) : List String :=
  l.foldl pySetAdd []

/-- `Database.empty` (`model.py` lines 532-540): the structure a fresh database
starts from. -/
def Database.empty : Database :=
  { tags := [], enforce_tags := false, backups_enabled := false, data := [] }

/-- `Database.add_tag` (`model.py` lines 201-213): `TypeError` unless the tag
is a string, otherwise `set.add` into the vocabulary. -/
def Database.add_tag (db : Database) (tag : PyVal) : Database × Option PyErr :=
  match tag with
  | .str s => ({ db with tags := pySetAdd db.tags s }, Option.none)
  | _ => (db, Option.some (.typeMismatch "tag must be a string"))

/-- `Database.add_tags` (`model.py` lines 235-245): calls `add_tag` once per
element, in order; an exception aborts the loop but the tags already added
stay added. -/
def Database.add_tags (db : Database) : List PyVal → Database × Option PyErr
  | [] => (db, Option.none)
  | t :: rest =>
    match Database.add_tag db t with
    | (db', Option.none) => Database.add_tags db' rest
    | (db', Option.some e) => (db', Option.some e)

/-- `Database.rm_tag` (`model.py` lines 215-227): `set.remove` with `KeyError`
swallowed — absence is not an error. -/
def Database.rm_tag (db : Database) (tag : String) : Database :=
  { db with tags := db.tags.filter (fun t => t ≠ tag) }

/-- `Database.rm_tags` (`model.py` lines 247-257). -/
def Database.rm_tags (db : Database) (tags : List String) : Database :=
  tags.foldl Database.rm_tag db

/-- `Database.clear_tags` (`model.py` lines 229-233). -/
def Database.clear_tags (db : Database) : Database :=
  { db with tags := [] }

/-- Whether a value passes the attribute-value check of `Database.set`
(`model.py` lines 294-299): `isinstance` of `str`, `int`, `float` or `bool`. -/
def isScalar : PyVal → Bool
  | .str _ => true
  | .int _ => true
  | .float _ => true
  | .bool _ => true
  | _ => false

/-- The tag-validation loop of `Database.set` (`model.py` lines 285-290): each
tag in order must be a string (`TypeError`) and, under `enforce_tags`, a member
of the vocabulary (`ValueError` naming the tag).  Returns the validated
strings. -/
def validateTags (vocab : List String) (enf : Bool) :
    List PyVal → Except PyErr (List String)
  | [] => .ok []
  | t :: rest =>
    match t with
    | .str s =>
      if enf ∧ s ∉ vocab then .error (.invalidTag s)
      else
        match validateTags vocab enf rest with
        | .ok ss => .ok (s :: ss)
        | .error e => .error e
    | _ => .error (.typeMismatch "All tags must be strings")

/-- The attribute-validation loop of `Database.set` (`model.py` lines
291-303): every value must be one of the four scalar types.  (Keys of Python
`**kwargs` are strings by construction, so the key check never fires and our
keys are typed `String`.) -/
def validateAttrs : List (String × PyVal) → Option PyErr
  | [] => Option.none
  | (_, v) :: rest =>
    if isScalar v then validateAttrs rest
    else Option.some (.typeMismatch
      "All attribute values must be either strings, integers, floats or booleans")

/-- `Database.set` (`model.py` lines 259-305): validate `data`, every tag and
every attribute value, then append `(data, set(tags), attrs)`.  All validation
precedes the append, so on error the database is unchanged. -/
def Database.set (db : Database) (data : PyVal) (tags : List PyVal)
    (attrs : List (String × PyVal)) : Database × Option PyErr :=
  match data with
  | .str d =>
    match validateTags db.tags db.enforce_tags tags with
    | .error e => (db, Option.some e)
    | .ok ss =>
      match validateAttrs attrs with
      | Option.some e => (db, Option.some e)
      | Option.none =>
        ({ db with data := db.data ++ [⟨d, pySet ss, attrs⟩] }, Option.none)
  | _ => (db, Option.some (.typeMismatch "data must be a string"))

/-- Python sequence index normalization: a negative index counts from the end
(`l[i]` is `l[i + len(l)]` for `-len(l) ≤ i < 0`); the access is valid iff the
normalized index lands in `[0, len(l))`. -/
def normIdx (i : Int) (n : Nat) : Option Nat :=
  if i < 0 then
    if 0 ≤ i + n then Option.some (i + n).toNat else Option.none
  else
    if i < n then Option.some i.toNat else Option.none

/-- `Database.unset` (`model.py` lines 307-321): `del self._data[index]` with
Python list semantics (negative indices address from the end); `IndexError` is
re-raised when the index does not exist. -/
def Database.unset (db : Database) (index : Int) : Database × Option PyErr :=
  match normIdx index db.data.length with
  | Option.some j => ({ db with data := db.data.eraseIdx j }, Option.none)
  | Option.none => (db, Option.some (.indexNotFound index))

/-- `Database.at_index` (`model.py` lines 379-396): `self._data[index]` with
Python list semantics; `IndexError` when the index does not exist. -/
def Database.at_index (db : Database) (index : Int) : Except PyErr Record :=
  match normIdx index db.data.length with
  | Option.some j => .ok (db.data.getD j default)
  | Option.none => .error (.indexNotFound index)

/-- `Database.id` (`model.py` lines 323-361): first index whose data matches,
with the four match modes; `ValueError` when nothing matches. -/
def Database.id (db : Database) (data : String) (contains : Bool)
    (case_insensitive : Bool) : Except PyErr Int :=
  match db.data.findIdx? (fun entry =>
    if !case_insensitive then
      if !contains then data == entry.data
      else (entry.data.splitOn data).length > 1
    else
      if !contains then data.toLower == entry.data.toLower
      else (entry.data.toLower.splitOn data.toLower).length > 1) with
  | Option.some i => .ok (Int.ofNat i)
  | Option.none => .error (.notFound data)

/-- `Database.query` (`model.py` lines 363-377): ascending indices of the
records whose tag set contains all queried tags. -/
def Database.query (db : Database) (tags : List String) : List Int :=
  (List.range db.data.length).filterMap (fun i =>
    match db.data[i]? with
    | Option.some r => if (pySet tags).all (fun t => t ∈ r.tags)
        then Option.some (Int.ofNat i) else Option.none
    | Option.none => Option.none)

/-- `Database.edit_id` (`model.py` lines 501-530): fetch the entry (may raise
`IndexError`), then rebuild it with falsy-coalescing per field — `data or
entry[0]`, `set(tags or entry[1])`, `attrs or entry[2]` — and, when
`enforce_tags` is set, the tag set (whether freshly supplied or carried over)
intersected with the vocabulary. -/
def Database.edit_id (db : Database) (id : Int) (data : Option String)
    (tags : Option (List String)) (attrs : Option (List (String × PyVal))) :
    Database × Option PyErr :=
  match Database.at_index db id with
  | .error e => (db, Option.some e)
  | .ok entry =>
    let tbase : List String :=
      match tags with
      | Option.none => entry.tags
      | Option.some l => if l = [] then entry.tags else l
    let tags_ : List String :=
      if db.enforce_tags then (pySet tbase).filter (fun t => t ∈ db.tags)
      else pySet tbase
    let data_ : String :=
      match data with
      | Option.none => entry.data
      | Option.some s => if s = "" then entry.data else s
    let attrs_ : List (String × PyVal) :=
      match attrs with
      | Option.none => entry.attrs
      | Option.some a => if a = [] then entry.attrs else a
    let j : Nat := (normIdx id db.data.length).getD 0
    ({ db with data := db.data.set j ⟨data_, tags_, attrs_⟩ }, Option.none)

/-! ### Basic lemmas about the set model and index normalization -/

theorem pySetAdd_mem (l : List String) (s t : String) :
    t ∈ pySetAdd l s ↔ t ∈ l ∨ t = s := by
  unfold pySetAdd
  by_cases h : s ∈ l
  · simp only [if_pos h]
    constructor
    · exact Or.inl
    · rintro (h' | rfl)
      · exact h'
      · exact h
  · simp [if_neg h]

theorem foldl_pySetAdd_mem (l : List String) :
    ∀ (acc : List String) (t : String),
      t ∈ l.foldl pySetAdd acc ↔ t ∈ acc ∨ t ∈ l := by
  induction l with
  | nil => simp
  | cons x xs ih =>
    intro acc t
    simp only [List.foldl_cons, ih, pySetAdd_mem, List.mem_cons]
    tauto

theorem pySet_mem (l : List String) (t : String) : t ∈ pySet l ↔ t ∈ l := by
  simp [pySet, foldl_pySetAdd_mem]

theorem pySetAdd_nodup {l : List String} (h : l.Nodup) (s : String) :
    (pySetAdd l s).Nodup := by
  unfold pySetAdd
  by_cases hs : s ∈ l
  · simpa [if_pos hs]
  · simp [if_neg hs, List.nodup_append, h, hs]

theorem foldl_pySetAdd_nodup (l : List String) :
    ∀ acc : List String, acc.Nodup → (l.foldl pySetAdd acc).Nodup := by
  induction l with
  | nil => intro acc h; simpa
  | cons x xs ih => intro acc h; exact ih _ (pySetAdd_nodup h x)

theorem pySet_nodup (l : List String) : (pySet l).Nodup :=
  foldl_pySetAdd_nodup l [] List.nodup_nil

theorem foldl_pySetAdd_of_disjoint (l : List String) :
    ∀ acc : List String, (∀ x ∈ l, x ∉ acc) → l.Nodup →
      l.foldl pySetAdd acc = acc ++ l := by
  induction l with
  | nil => intro acc _ _; simp
  | cons x xs ih =>
    intro acc hdisj hnd
    have hx : x ∉ acc := hdisj x (List.mem_cons_self x xs)
    have hstep : pySetAdd acc x = acc ++ [x] := by simp [pySetAdd, hx]
    simp only [List.foldl_cons, hstep]
    rw [ih (acc ++ [x])]
    · simp
    · intro y hy
      simp only [List.mem_append, List.mem_singleton]
      rintro (h' | rfl)
      · exact hdisj y (List.mem_cons_of_mem x hy) h'
      · exact (List.nodup_cons.mp hnd).1 hy
    · exact (List.nodup_cons.mp hnd).2

theorem pySet_eq_self_of_nodup {l : List String} (h : l.Nodup) : pySet l = l := by
  have := foldl_pySetAdd_of_disjoint l [] (by simp) h
  simpa [pySet] using this

theorem normIdx_ofNat {n i : Nat} (h : i < n) :
    normIdx (i : Int) n = Option.some i := by
  unfold normIdx
  have h1 : ¬ ((i : Int) < 0) := by omega
  have h2 : (i : Int) < (n : Int) := by omega
  simp only [if_neg h1, if_pos h2, Int.toNat_natCast]

theorem normIdx_eq_none_iff {i : Int} {n : Nat} :
    normIdx i n = Option.none ↔ (i < -(n : Int) ∨ (n : Int) ≤ i) := by
  unfold normIdx
  split <;> rename_i h1 <;> split <;> rename_i h2 <;>
    simp only [reduceCtorEq, false_iff, true_iff] <;> omega

theorem normIdx_some_lt {i : Int} {n j : Nat} (h : normIdx i n = Option.some j) :
    j < n := by
  unfold normIdx at h
  split at h <;> rename_i h1 <;> split at h <;> rename_i h2 <;>
    first
    | (injection h with h; omega)
    | exact absurd h (by simp)

theorem at_index_ofNat {db : Database} {i : Nat} (h : i < db.data.length) :
    db.at_index (i : Int) = .ok (db.data.getD i default) := by
  unfold Database.at_index
  rw [normIdx_ofNat h]

theorem validateTags_ok (vocab : List String) (enf : Bool) (tags : List String)
    (h : enf = true → ∀ t ∈ tags, t ∈ vocab) :
    validateTags vocab enf (tags.map PyVal.str) = .ok tags := by
  induction tags with
  | nil => rfl
  | cons t ts ih =>
    have hcond : ¬ (enf = true ∧ t ∉ vocab) := by
      rintro ⟨he, hnm⟩
      exact hnm (h he t (List.mem_cons_self t ts))
    simp only [List.map_cons, validateTags, if_neg hcond]
    rw [ih (fun he u hu => h he u (List.mem_cons_of_mem t hu))]

theorem validateAttrs_eq_none (as : List (String × PyVal))
    (h : ∀ kv ∈ as, isScalar kv.2 = true) : validateAttrs as = Option.none := by
  induction as with
  | nil => rfl
  | cons kv rest ih =>
    simp only [validateAttrs, if_pos (h kv (List.mem_cons_self kv rest))]
    exact ih (fun kv' h' => h kv' (List.mem_cons_of_mem kv h'))

theorem scalar_of_validateAttrs (as : List (String × PyVal))
    (h : validateAttrs as = Option.none) : ∀ kv ∈ as, isScalar kv.2 = true := by
  induction as with
  | nil => intro kv hkv; simp at hkv
  | cons kv' rest ih =>
    intro kv hkv
    by_cases hs : isScalar kv'.2 = true
    · simp only [validateAttrs, if_pos hs] at h
      rcases List.mem_cons.mp hkv with rfl | hmem
      · exact hs
      · exact ih h kv hmem
    · simp [validateAttrs, hs] at h

theorem getD_set_self {α : Type} [Inhabited α] {l : List α} {i : Nat}
    (h : i < l.length) (r : α) : (l.set i r).getD i default = r := by
  simp [List.getD_eq_getElem?_getD, List.getElem?_set_self h]

theorem getD_set_ne {α : Type} [Inhabited α] {l : List α} {i j : Nat}
    (h : i ≠ j) (r : α) : (l.set i r).getD j default = l.getD j default := by
  simp [List.getD_eq_getElem?_getD, List.getElem?_set_ne h]

/-- `edit_id` at an in-range non-negative index, resolved: the entry is
replaced by the falsy-coalesced rebuild and no error is raised. -/
theorem edit_id_ofNat (db : Database) (i : Nat) (h : i < db.data.length)
    (d? : Option String) (t? : Option (List String))
    (a? : Option (List (String × PyVal))) :
    db.edit_id (i : Int) d? t? a? =
      ({ db with data := db.data.set i (Record.mk
          (match d? with
            | Option.none => (db.data.getD i default).data
            | Option.some s => if s = "" then (db.data.getD i default).data else s)
          (if db.enforce_tags then
              (pySet (match t? with
                | Option.none => (db.data.getD i default).tags
                | Option.some l =>
                  if l = [] then (db.data.getD i default).tags else l)).filter
                (fun t => t ∈ db.tags)
            else
              pySet (match t? with
                | Option.none => (db.data.getD i default).tags
                | Option.some l =>
                  if l = [] then (db.data.getD i default).tags else l))
          (match a? with
            | Option.none => (db.data.getD i default).attrs
            | Option.some a =>
              if a = [] then (db.data.getD i default).attrs else a)) },
        Option.none) := by
  unfold Database.edit_id
  rw [at_index_ofNat h]
  simp only [normIdx_ofNat h, Option.getD_some]

/-- A concrete database used as counterexample input: tag enforcement on,
empty vocabulary, one record carrying tag "t" (reachable by adding "t" to the
vocabulary, inserting the record, then removing "t" — vocabulary shrink is not
retroactive). -/
def sampleDb : Database :=
  { tags := [], enforce_tags := true, backups_enabled := false,
    data := [⟨"a", ["t"], []⟩] }

/-- C1, counterexample: on `sampleDb` (enforce_tags true, vocabulary empty,
record 0 tagged \x7b"t"\x7d), `edit_id 0` supplying only a new data string
drops the record's tag "t" (the carried-over tag set is intersected with the
vocabulary), so a field left unspecified does not keep its previous value. -/
theorem C1_counterexample :
    ((Database.edit_id sampleDb 0 (Option.some "b") Option.none
        Option.none).1.data.getD 0 default).tags = [] ∧
    (sampleDb.data.getD 0 default).tags = ["t"] ∧
    (Database.edit_id sampleDb 0 (Option.some "b") Option.none
        Option.none).2 = Option.none := by
  exact ⟨rfl, rfl, rfl⟩

/-- C1, amended: for an in-range index, `edit` raises no error and each field
left unspecified or supplied empty keeps its previous value — except that the
tag set (even a carried-over one) is intersected with the current vocabulary
whenever `enforce_tags` is true; with enforcement off, an unspecified or empty
tag set is preserved exactly (given the stored tag set is duplicate-free, as
set semantics guarantees). -/
theorem C1_edit_falsy_coalescing (db : Database) (i : Nat)
    (h : i < db.data.length) (d? : Option String) (t? : Option (List String))
    (a? : Option (List (String × PyVal))) :
    ((db.edit_id (i : Int) d? t? a?).2 = Option.none) ∧
    ((db.edit_id (i : Int) d? t? a?).1.data.length = db.data.length) ∧
    ((d? = Option.none ∨ d? = Option.some "") →
      ((db.edit_id (i : Int) d? t? a?).1.data.getD i default).data
        = (db.data.getD i default).data) ∧
    ((a? = Option.none ∨ a? = Option.some []) →
      ((db.edit_id (i : Int) d? t? a?).1.data.getD i default).attrs
        = (db.data.getD i default).attrs) ∧
    ((t? = Option.none ∨ t? = Option.some []) → db.enforce_tags = false →
      (db.data.getD i default).tags.Nodup →
      ((db.edit_id (i : Int) d? t? a?).1.data.getD i default).tags
        = (db.data.getD i default).tags) ∧
    ((t? = Option.none ∨ t? = Option.some []) → db.enforce_tags = true →
      ∀ t : String,
        t ∈ ((db.edit_id (i : Int) d? t? a?).1.data.getD i default).tags ↔
          (t ∈ (db.data.getD i default).tags ∧ t ∈ db.tags)) := by
  rw [edit_id_ofNat db i h]
  refine ⟨rfl, by simp, ?_, ?_, ?_, ?_⟩
  · rintro (rfl | rfl) <;> simp [h]
  · rintro (rfl | rfl) <;> simp [h]
  · rintro (rfl | rfl) <;> intro henf hnd <;>
      (simp_all [h]; exact pySet_eq_self_of_nodup hnd)
  · rintro (rfl | rfl) <;> intro henf t <;>
      simp [h, henf, List.mem_filter, pySet_mem]

/-- Witness for C1 at a concrete input: editing record 0 of `sampleDb` with
every field unspecified succeeds, and the resulting tag set is the previous
one intersected with the vocabulary. -/
theorem C1_witness :
    ((Database.edit_id sampleDb ((0 : Nat) : Int) Option.none Option.none
        Option.none).2 = Option.none) ∧
    (∀ t : String,
      t ∈ ((Database.edit_id sampleDb ((0 : Nat) : Int) Option.none Option.none
          Option.none).1.data.getD 0 default).tags ↔
        (t ∈ (sampleDb.data.getD 0 default).tags ∧ t ∈ sampleDb.tags)) := by
  have h := C1_edit_falsy_coalescing sampleDb 0 (by decide) Option.none
    Option.none Option.none
  exact ⟨h.1, h.2.2.2.2.2 (Or.inl rfl) rfl⟩

/-- C2, counterexample: `add_tags(["a", 1])` on an empty database adds `"a"`
to the vocabulary and then raises `TypeError` on `1` — the failing call has
mutated the vocabulary. -/
theorem C2_counterexample :
    Database.add_tags Database.empty [PyVal.str "a", PyVal.int 1]
      = ({ Database.empty with tags := ["a"] },
         Option.some (PyErr.typeMismatch "tag must be a string")) ∧
    ({ Database.empty with tags := ["a"] } : Database).tags
      ≠ Database.empty.tags := by
  exact ⟨rfl, by decide⟩

/-- C2, amended: `set`, `unset` and `edit_id` validate before mutating — a
failing call leaves the database unchanged — but `add_tags` adds tags one at a
time, so the tags preceding the first non-string element stay added when it
raises `TypeError`. -/
theorem C2_atomicity :
    (∀ (db : Database) (d : PyVal) (ts : List PyVal)
        (attrs : List (String × PyVal)),
      (Database.set db d ts attrs).2 ≠ Option.none →
        (Database.set db d ts attrs).1 = db) ∧
    (∀ (db : Database) (i : Int),
      (Database.unset db i).2 ≠ Option.none → (Database.unset db i).1 = db) ∧
    (∀ (db : Database) (i : Int) (d : Option String) (t : Option (List String))
        (a : Option (List (String × PyVal))),
      (Database.edit_id db i d t a).2 ≠ Option.none →
        (Database.edit_id db i d t a).1 = db) ∧
    (∀ (db : Database) (pre : List PyVal) (bad : PyVal) (rest : List PyVal),
      (∀ v ∈ pre, ∃ s, v = PyVal.str s) → (∀ s, bad ≠ PyVal.str s) →
      Database.add_tags db (pre ++ bad :: rest)
        = ((Database.add_tags db pre).1,
           Option.some (PyErr.typeMismatch "tag must be a string"))) := by
  refine ⟨?_, ?_, ?_, ?_⟩
  · intro db d ts attrs h
    unfold Database.set at h ⊢
    cases d <;> try rfl
    rename_i s
    cases hv : validateTags db.tags db.enforce_tags ts with
    | error e => simp [hv]
    | ok ss =>
      cases ha : validateAttrs attrs with
      | none => simp [hv, ha] at h
      | some e => simp [hv, ha]
  · intro db i h
    unfold Database.unset at h ⊢
    cases hn : normIdx i db.data.length with
    | some j => simp [hn] at h
    | none => simp [hn]
  · intro db i d t a h
    unfold Database.edit_id at h ⊢
    cases hat : Database.at_index db i with
    | error e => simp [hat]
    | ok entry => simp [hat] at h
  · intro db pre
    induction pre generalizing db with
    | nil =>
      intro bad rest _ hbad
      cases bad <;>
        first
        | exact absurd rfl (hbad _)
        | simp [Database.add_tags, Database.add_tag]
    | cons v vs ih =>
      intro bad rest hpre hbad
      obtain ⟨s, rfl⟩ := hpre v (List.mem_cons_self v vs)
      simp only [List.cons_append, Database.add_tags, Database.add_tag]
      exact ih _ bad rest (fun v' h' => hpre v' (List.mem_cons_of_mem _ h')) hbad

/-- Witness for C2's amended statement at concrete inputs: a failing `set`
leaves the database unchanged, and `add_tags ["a", 1]` keeps the `"a"` added
before the error. -/
theorem C2_witness :
    (Database.set Database.empty (PyVal.int 0) [] []).1 = Database.empty ∧
    Database.add_tags Database.empty [PyVal.str "a", PyVal.int 1]
      = ((Database.add_tags Database.empty [PyVal.str "a"]).1,
         Option.some (PyErr.typeMismatch "tag must be a string")) := by
  constructor
  · exact C2_atomicity.1 Database.empty (PyVal.int 0) [] [] (by decide)
  · exact C2_atomicity.2.2.2 Database.empty [PyVal.str "a"] (PyVal.int 1) []
      (by intro v hv; cases hv with
        | head => exact ⟨"a", rfl⟩
        | tail _ h => cases h)
      (by intro s h; cases h)

/-- If `at_index` returns a record, that record is an element of the data
list. -/
theorem at_index_mem {db : Database} {i : Int} {r : Record}
    (h : db.at_index i = .ok r) : r ∈ db.data := by
  unfold Database.at_index at h
  cases hn : normIdx i db.data.length with
  | some j =>
    rw [hn] at h
    injection h with h
    have hj := normIdx_some_lt hn
    rw [← h, List.getD_eq_getElem?_getD, List.getElem?_eq_getElem hj]
    exact List.getElem_mem hj
  | none => rw [hn] at h; cases h

/-- C3, counterexample: on the one-record `sampleDb` the negative index `-1`
does not fail — `get` returns the (last) record and `remove` deletes it, by
Python's negative-index semantics. -/
theorem C3_counterexample :
    Database.at_index sampleDb (-1) = Except.ok ⟨"a", ["t"], []⟩ ∧
    Database.unset sampleDb (-1) = ({ sampleDb with data := [] }, Option.none) := by
  exact ⟨rfl, rfl⟩

/-- C3, amended: `get`/`remove` fail with `IndexNotFound` iff the index is
outside `[-n, n)`; an index in `[-n, 0)` addresses position `i + n`.  On
success `remove` deletes the addressed record and shifts the subsequent
indices down by one, and a failing `remove` leaves the database unchanged. -/
theorem C3_index_range (db : Database) (i : Int) :
    (Database.at_index db i = Except.error (PyErr.indexNotFound i) ↔
      (i < -(db.data.length : Int) ∨ (db.data.length : Int) ≤ i)) ∧
    ((Database.unset db i).2 = Option.some (PyErr.indexNotFound i) ↔
      (i < -(db.data.length : Int) ∨ (db.data.length : Int) ≤ i)) ∧
    ((Database.unset db i).2 ≠ Option.none → (Database.unset db i).1 = db) ∧
    (∀ j : Nat, normIdx i db.data.length = Option.some j →
      (Database.at_index db i = Except.ok (db.data.getD j default) ∧
       (Database.unset db i).2 = Option.none ∧
       (Database.unset db i).1.data.length + 1 = db.data.length ∧
       (∀ k : Nat, k < j →
         (Database.unset db i).1.data.getD k default
           = db.data.getD k default) ∧
       (∀ k : Nat, j ≤ k → k + 1 < db.data.length →
         (Database.unset db i).1.data.getD k default
           = db.data.getD (k + 1) default))) := by
  refine ⟨?_, ?_, ?_, ?_⟩
  · unfold Database.at_index
    cases hn : normIdx i db.data.length with
    | some j =>
      simp only [reduceCtorEq, false_iff]
      intro hout
      rw [normIdx_eq_none_iff.mpr hout] at hn
      cases hn
    | none => simp only [Except.error.injEq, PyErr.indexNotFound.injEq, true_iff]
              exact normIdx_eq_none_iff.mp hn
  · unfold Database.unset
    cases hn : normIdx i db.data.length with
    | some j =>
      simp only [reduceCtorEq, false_iff]
      intro hout
      rw [normIdx_eq_none_iff.mpr hout] at hn
      cases hn
    | none => simp only [Option.some.injEq, PyErr.indexNotFound.injEq, true_iff]
              exact normIdx_eq_none_iff.mp hn
  · intro h
    unfold Database.unset at h ⊢
    cases hn : normIdx i db.data.length with
    | some j => simp [hn] at h
    | none => simp [hn]
  · intro j hn
    have hj := normIdx_some_lt hn
    unfold Database.at_index Database.unset
    rw [hn]
    refine ⟨rfl, rfl, ?_, ?_, ?_⟩
    · simp only [List.length_eraseIdx_of_lt hj]
      omega
    · intro k hk
      simp [List.getD_eq_getElem?_getD, List.getElem?_eraseIdx_of_lt _ _ _ hk]
    · intro k hk hk1
      simp [List.getD_eq_getElem?_getD, List.getElem?_eraseIdx_of_ge _ _ _ hk]

/-- Witness for C3 at a concrete input: index 2 on the one-record `sampleDb`
is out of range and `remove` leaves the database unchanged, while the in-range
index 0 deletes the record. -/
theorem C3_witness :
    (Database.at_index sampleDb 2 = Except.error (PyErr.indexNotFound 2)) ∧
    (Database.unset sampleDb 2).1 = sampleDb ∧
    Database.at_index sampleDb 0 = Except.ok (sampleDb.data.getD 0 default) := by
  refine ⟨?_, ?_, ?_⟩
  · exact (C3_index_range sampleDb 2).1.mpr (by decide)
  · exact (C3_index_range sampleDb 2).2.2.1
      (by rw [((C3_index_range sampleDb 2).2.1.mpr (by decide))]; decide)
  · exact ((C3_index_range sampleDb 0).2.2.2 0 (by decide)).1

/-- The §3 data-model invariant on attribute values: every attribute of every
record holds one of the four permitted scalar types. -/
def AttrsScalar (db : Database) : Prop :=
  ∀ r ∈ db.data, ∀ kv ∈ r.attrs, isScalar kv.2 = true

/-- C4, counterexample: `edit_id` performs no attrs validation, so a
successful edit stores the non-scalar value `[]` (a Python list) as an
attribute value, breaking the invariant. -/
theorem C4_counterexample :
    (Database.edit_id sampleDb 0 Option.none Option.none
        (Option.some [("k", PyVal.list [])])).2 = Option.none ∧
    ((Database.edit_id sampleDb 0 Option.none Option.none
        (Option.some [("k", PyVal.list [])])).1.data.getD 0 default).attrs
      = [("k", PyVal.list [])] ∧
    isScalar (PyVal.list []) = false := by
  exact ⟨rfl, rfl, rfl⟩

/-- C4, amended: the scalar-attribute invariant is preserved by `set` (which
validates every attribute value), by `unset`, and by `edit_id` whenever the
supplied attrs mapping is absent or itself scalar-valued; `edit_id` does not
validate attrs, so a non-scalar value it is handed is stored as-is (the
counterexample). -/
theorem C4_scalar_invariant (db : Database) (h : AttrsScalar db) :
    (∀ (d : PyVal) (ts : List PyVal) (attrs : List (String × PyVal)),
      AttrsScalar (Database.set db d ts attrs).1) ∧
    (∀ i : Int, AttrsScalar (Database.unset db i).1) ∧
    (∀ (i : Int) (d : Option String) (t : Option (List String))
        (a : List (String × PyVal)), (∀ kv ∈ a, isScalar kv.2 = true) →
      AttrsScalar (Database.edit_id db i d t (Option.some a)).1) ∧
    (∀ (i : Int) (d : Option String) (t : Option (List String)),
      AttrsScalar (Database.edit_id db i d t Option.none).1) := by
  refine ⟨?_, ?_, ?_, ?_⟩
  · intro d ts attrs
    unfold Database.set
    cases d <;> try exact h
    cases hv : validateTags db.tags db.enforce_tags ts with
    | error e => exact h
    | ok ss =>
      cases ha : validateAttrs attrs with
      | some e => exact h
      | none =>
        intro r hr kv hkv
        rcases List.mem_append.mp hr with hmem | hnew
        · exact h r hmem kv hkv
        · rcases List.mem_singleton.mp hnew with rfl
          exact scalar_of_validateAttrs attrs ha kv hkv
  · intro i
    unfold Database.unset
    cases hn : normIdx i db.data.length with
    | some j => exact fun r hr => h r (List.mem_of_mem_eraseIdx hr)
    | none => exact h
  · intro i d t a ha
    unfold Database.edit_id
    cases hat : Database.at_index db i with
    | error e => exact h
    | ok entry =>
      intro r hr kv hkv
      rcases List.mem_or_eq_of_mem_set hr with hmem | rfl
      · exact h r hmem kv hkv
      · simp only at hkv
        by_cases he : a = []
        · rw [if_pos he] at hkv
          exact h entry (at_index_mem hat) kv hkv
        · rw [if_neg he] at hkv
          exact ha kv hkv
  · intro i d t
    unfold Database.edit_id
    cases hat : Database.at_index db i with
    | error e => exact h
    | ok entry =>
      intro r hr kv hkv
      rcases List.mem_or_eq_of_mem_set hr with hmem | rfl
      · exact h r hmem kv hkv
      · exact h entry (at_index_mem hat) kv hkv

/-- Witness for C4's amended statement at a concrete input: inserting a record
with a scalar attribute into the (invariant-satisfying) empty database keeps
the invariant. -/
theorem C4_witness :
    AttrsScalar (Database.set Database.empty (PyVal.str "x") []
      [("k", PyVal.int 1)]).1 := by
  exact (C4_scalar_invariant Database.empty (by intro r hr; cases hr)).1
    (PyVal.str "x") [] [("k", PyVal.int 1)]

/-- Under enforcement, the tag-validation loop of `set` raises `InvalidTag`
naming an offending (non-vocabulary) tag whenever one is present. -/
theorem validateTags_invalid (vocab : List String) (tags : List String)
    (hex : ∃ t ∈ tags, t ∉ vocab) :
    ∃ t, t ∈ tags ∧ t ∉ vocab ∧
      validateTags vocab true (tags.map PyVal.str)
        = .error (.invalidTag t) := by
  induction tags with
  | nil => obtain ⟨t, ht, _⟩ := hex; cases ht
  | cons t ts ih =>
    by_cases ht : t ∈ vocab
    · obtain ⟨t', ht'1, ht'2⟩ := hex
      have ht'ts : t' ∈ ts := by
        rcases List.mem_cons.mp ht'1 with rfl | hmem
        · exact absurd ht ht'2
        · exact hmem
      obtain ⟨w, hw1, hw2, heq⟩ := ih ⟨t', ht'ts, ht'2⟩
      refine ⟨w, List.mem_cons_of_mem t hw1, hw2, ?_⟩
      simp only [List.map_cons, validateTags, heq]
      simp [ht]
    · refine ⟨t, List.mem_cons_self t ts, ht, ?_⟩
      simp [validateTags, ht]

/-- C7: when `enforce_tags` is true, `insert` with a non-vocabulary tag fails
with `InvalidTag` naming an offending tag and appends nothing, whereas `edit`
with a (nonempty) tag set containing a non-vocabulary tag succeeds and stores
the intersection of the supplied tag set with the vocabulary. -/
theorem C7_enforcement_asymmetry :
    (∀ (db : Database) (d : String) (tags : List String)
        (attrs : List (String × PyVal)), db.enforce_tags = true →
      (∃ t ∈ tags, t ∉ db.tags) →
      ∃ t, t ∈ tags ∧ t ∉ db.tags ∧
        Database.set db (PyVal.str d) (tags.map PyVal.str) attrs
          = (db, Option.some (PyErr.invalidTag t))) ∧
    (∀ (db : Database) (i : Nat) (tags : List String) (d? : Option String)
        (a? : Option (List (String × PyVal))),
      db.enforce_tags = true → i < db.data.length → tags ≠ [] →
      ((db.edit_id (i : Int) d? (Option.some tags) a?).2 = Option.none ∧
       ∀ t : String,
         t ∈ ((db.edit_id (i : Int) d? (Option.some tags) a?).1.data.getD i
             default).tags ↔ (t ∈ tags ∧ t ∈ db.tags))) := by
  constructor
  · intro db d tags attrs henf hex
    obtain ⟨t, ht1, ht2, heq⟩ := validateTags_invalid db.tags tags hex
    refine ⟨t, ht1, ht2, ?_⟩
    unfold Database.set
    rw [henf, heq]
  · intro db i tags d? a? henf h htags
    rw [edit_id_ofNat db i h]
    refine ⟨rfl, ?_⟩
    intro t
    simp [h, henf, htags, List.mem_filter, pySet_mem]

/-- A concrete enforcing database with vocabulary \x7b"good"\x7d and one
untagged record. -/
def dbEnf : Database :=
  { tags := ["good"], enforce_tags := true, backups_enabled := false,
    data := [⟨"a", [], []⟩] }

/-- Witness for C7 at concrete inputs: on `dbEnf`, `insert("x", "bad")` fails
with `InvalidTag "bad"` and leaves the store unchanged, while
`edit(0, tags={"bad", "good"})` succeeds storing only `"good"`. -/
theorem C7_witness :
    Database.set dbEnf (PyVal.str "x") [PyVal.str "bad"] []
      = (dbEnf, Option.some (PyErr.invalidTag "bad")) ∧
    (Database.edit_id dbEnf ((0 : Nat) : Int) Option.none
        (Option.some ["bad", "good"]) Option.none).2 = Option.none ∧
    ("bad" ∉ ((Database.edit_id dbEnf ((0 : Nat) : Int) Option.none
        (Option.some ["bad", "good"]) Option.none).1.data.getD 0 default).tags) ∧
    ("good" ∈ ((Database.edit_id dbEnf ((0 : Nat) : Int) Option.none
        (Option.some ["bad", "good"]) Option.none).1.data.getD 0 default).tags) := by
  have h1 := C7_enforcement_asymmetry.1 dbEnf "x" ["bad"] [] rfl
    ⟨"bad", List.mem_cons_self "bad" [], by decide⟩
  have h2 := C7_enforcement_asymmetry.2 dbEnf 0 ["bad", "good"] Option.none
    Option.none rfl (by decide) (by decide)
  obtain ⟨t, ht1, ht2, heq⟩ := h1
  have htb : t = "bad" := by
    rcases List.mem_cons.mp ht1 with rfl | hmem
    · rfl
    · cases hmem
  subst htb
  refine ⟨heq, h2.1, ?_, ?_⟩
  · intro hmem
    have := (h2.2 "bad").mp hmem
    revert this
    decide
  · exact (h2.2 "good").mpr (by decide)

/-- C8: for a valid data string, string tags (vocabulary members, when
enforcement is on) and scalar-valued attrs, `insert` succeeds, appends exactly
one record — the tag list coerced to a de-duplicated set, the attrs as given —
at index `len(data)`, `get` on that index returns it, and the vocabulary is
untouched. -/
theorem C8_insert_appends (db : Database) (d : String) (tags : List String)
    (attrs : List (String × PyVal))
    (henf : db.enforce_tags = true → ∀ t ∈ tags, t ∈ db.tags)
    (hattrs : ∀ kv ∈ attrs, isScalar kv.2 = true) :
    (Database.set db (PyVal.str d) (tags.map PyVal.str) attrs).2
      = Option.none ∧
    (Database.set db (PyVal.str d) (tags.map PyVal.str) attrs).1.tags
      = db.tags ∧
    (Database.set db (PyVal.str d) (tags.map PyVal.str) attrs).1.data
      = db.data ++ [⟨d, pySet tags, attrs⟩] ∧
    Database.at_index
        (Database.set db (PyVal.str d) (tags.map PyVal.str) attrs).1
        ((db.data.length : Nat) : Int)
      = Except.ok ⟨d, pySet tags, attrs⟩ ∧
    (pySet tags).Nodup ∧
    (∀ t, t ∈ pySet tags ↔ t ∈ tags) := by
  have hset : Database.set db (PyVal.str d) (tags.map PyVal.str) attrs
      = ({ db with data := db.data ++ [⟨d, pySet tags, attrs⟩] },
         Option.none) := by
    unfold Database.set
    rw [validateTags_ok db.tags db.enforce_tags tags henf,
      validateAttrs_eq_none attrs hattrs]
  rw [hset]
  have hlt : db.data.length
      < (db.data ++ [(⟨d, pySet tags, attrs⟩ : Record)]).length := by
    simp
  refine ⟨rfl, rfl, rfl, ?_, pySet_nodup tags, pySet_mem tags⟩
  rw [at_index_ofNat hlt]
  simp [List.getD_eq_getElem?_getD,
    List.getElem?_append_right (Nat.le_refl db.data.length)]

/-- Witness for C8 at a concrete input: inserting `("x", ["t", "t"],
{"a": 1})` into the empty database stores one record with de-duplicated tag
set, and `get 0` returns it. -/
theorem C8_witness :
    (Database.set Database.empty (PyVal.str "x")
        ([ "t", "t"].map PyVal.str) [("a", PyVal.int 1)]).1.data
      = [⟨"x", pySet ["t", "t"], [("a", PyVal.int 1)]⟩] ∧
    Database.at_index
        (Database.set Database.empty (PyVal.str "x")
          ([ "t", "t"].map PyVal.str) [("a", PyVal.int 1)]).1
        ((Database.empty.data.length : Nat) : Int)
      = Except.ok ⟨"x", pySet ["t", "t"], [("a", PyVal.int 1)]⟩ := by
  have h := C8_insert_appends Database.empty "x" ["t", "t"]
    [("a", PyVal.int 1)] (by intro he; cases he) (by decide)
  exact ⟨h.2.2.1, h.2.2.2.1⟩

/-! ### The `format` templating mini-language (`model.py` lines 398-499)

The four regexes `RE_ID`, `RE_DATA`, `RE_TAGS`, `RE_ATTRS` are hand-compiled
to leftmost-match scanners with Python `re` semantics: `re.search` returns the
leftmost match; `(.*?)` is lazy (shortest first, growing on failure of what
follows, never across a newline); an optional group is tried before being
skipped; `\d*` and `\s*` are greedy (no backtracking can help them here since
what follows each cannot start with a digit resp. a space). -/

/-- ASCII subset of Python regex `\s` (the templates of interest are ASCII). -/
def pyIsSpace (c : Char) : Bool :=
  c = ' ' ∨ c = '\t' ∨ c = '\n' ∨ c = '\r' ∨ c = '\x0b' ∨ c = '\x0c'

/-- Consume a literal; give back the rest. -/
def stripLeading : List Char → List Char → Option (List Char)
  | [], cs => Option.some cs
  | _ :: _, [] => Option.none
  | p :: ps, c :: cs => if c = p then stripLeading ps cs else Option.none

/-- The lazy group `(.*?)` when followed by `"\)` in the pattern: the shortest
newline-free prefix whose next two characters are `"` and `)`.  Returns the
group text and the remaining input. -/
def lazyQP : List Char → Option (List Char × List Char)
  | [] => Option.none
  | [_] => Option.none
  | c :: c2 :: rest =>
    if c = '"' ∧ c2 = ')' then Option.some ([], rest)
    else if c = '\n' then Option.none
    else (lazyQP (c2 :: rest)).map (fun p => (c :: p.1, p.2))

/-- After the first group of `RE_ATTRS` closes: `,\s*"` then the second lazy
group.  Returns the matched whitespace, the second group and the rest. -/
def lazyAttrsTail (cs : List Char) :
    Option (List Char × List Char × List Char) :=
  match cs with
  | c :: cs2 =>
    if c = ',' then
      match cs2.dropWhile pyIsSpace with
      | q :: cs3 =>
        if q = '"' then
          match lazyQP cs3 with
          | Option.some (g2, rest) =>
            Option.some (cs2.takeWhile pyIsSpace, g2, rest)
          | Option.none => Option.none
        else Option.none
      | [] => Option.none
    else Option.none
  | [] => Option.none

/-- The first lazy group of `RE_ATTRS`, `(.*?)` followed by `",\s*"(.*?)"\)`:
grows until a `"` at which the whole tail matches.  Returns group 1, the
whitespace matched by `\s*`, group 2 and the rest. -/
def lazyAttrs : List Char → Option (List Char × List Char × List Char × List Char)
  | [] => Option.none
  | c :: cs =>
    match (if c = '"' then lazyAttrsTail cs else Option.none) with
    | Option.some (sp, g2, rest) => Option.some ([], sp, g2, rest)
    | Option.none =>
      if c = '\n' then Option.none
      else (lazyAttrs cs).map (fun t => (c :: t.1, t.2.1, t.2.2.1, t.2.2.2))

/-- Try `RE_ID`/`RE_DATA` at the current position (`head` is the literal
`%id(` resp. `%data(`): greedy digits, then the optional `,\s*"(.*?)"` fill
group — tried first, skipped if it cannot complete — then `)`.  Returns
(group 0, the width digits, the fill group). -/
def matchWidthFillAt (head : List Char) (cs : List Char) :
    Option (List Char × List Char × Option (List Char)) :=
  match stripLeading head cs with
  | Option.none => Option.none
  | Option.some cs1 =>
    let ds := cs1.takeWhile Char.isDigit
    let cs2 := cs1.dropWhile Char.isDigit
    let attempt : Option (List Char × List Char × Option (List Char)) :=
      match cs2 with
      | ',' :: cs3 =>
        match cs3.dropWhile pyIsSpace with
        | '"' :: cs5 =>
          match lazyQP cs5 with
          | Option.some (g3, _) =>
            Option.some (head ++ ds ++ [','] ++ cs3.takeWhile pyIsSpace
              ++ ['"'] ++ g3 ++ ['"', ')'], ds, Option.some g3)
          | Option.none => Option.none
        | _ => Option.none
      | _ => Option.none
    match attempt with
    | Option.some r => Option.some r
    | Option.none =>
      match cs2 with
      | ')' :: _ => Option.some (head ++ ds ++ [')'], ds, Option.none)
      | _ => Option.none

/-- Try `RE_TAGS` at the current position: `%tags("` then the lazy separator
group closed by `")`.  Returns (group 0, the separator). -/
def matchTagsAt (cs : List Char) : Option (List Char × List Char) :=
  match stripLeading ("%tags(\"".toList) cs with
  | Option.some cs1 =>
    (lazyQP cs1).map (fun p =>
      ("%tags(\"".toList ++ p.1 ++ ['"', ')'], p.1))
  | Option.none => Option.none

/-- Try `RE_ATTRS` at the current position: `%attrs("` then the two lazy
separator groups.  Returns (group 0, SEP1, SEP2). -/
def matchAttrsAt (cs : List Char) : Option (List Char × List Char × List Char) :=
  match stripLeading ("%attrs(\"".toList) cs with
  | Option.some cs1 =>
    match lazyAttrs cs1 with
    | Option.some (g1, sp, g2, _) =>
      Option.some ("%attrs(\"".toList ++ g1 ++ ['"', ','] ++ sp ++ ['"']
        ++ g2 ++ ['"', ')'], g1, g2)
    | Option.none => Option.none
  | Option.none => Option.none

/-- `re.search`: try the pattern at each position from the left, returning the
first (leftmost) match. -/
def reSearch {α : Type} (matchAt : List Char → Option α) : List Char → Option α
  | [] => matchAt []
  | cs@(_ :: rest) =>
    match matchAt cs with
    | Option.some r => Option.some r
    | Option.none => reSearch matchAt rest

/-- Python `str.replace(old, new)`, fuel-recursive so that the kernel can
evaluate it (the fuel, bounded by the string length, only pays for the
non-structural jump past a replaced occurrence; it never runs out). -/
def pyReplaceFuel (old new : List Char) : Nat → List Char → List Char
  | 0, s => s
  | _ + 1, [] => []
  | fuel + 1, c :: cs =>
    if old ≠ [] ∧ old.isPrefixOf (c :: cs) then
      new ++ pyReplaceFuel old new fuel ((c :: cs).drop old.length)
    else c :: pyReplaceFuel old new fuel cs

/-- Python `str.replace(old, new)`: replace every non-overlapping occurrence,
scanning left to right.  (`old` is never empty at the call sites: every
`group(0)` starts with a `%` literal.) -/
def pyReplace (old new : List Char) (s : List Char) : List Char :=
  pyReplaceFuel old new s.length s

/-- Decimal digit to character. -/
def digitChar10 (d : Nat) : Char := Char.ofNat (48 + d)

/-- Decimal digits of a number, least significant first, fuel-recursive so
that the kernel can evaluate it (fuel `n` always suffices since `n / 10`
decreases strictly from any positive `n`). -/
def natDigitsRevFuel : Nat → Nat → List Char
  | 0, _ => []
  | fuel + 1, n =>
    if n = 0 then [] else digitChar10 (n % 10) :: natDigitsRevFuel fuel (n / 10)

/-- Python `str` of a non-negative integer. -/
def natToChars (n : Nat) : List Char :=
  if n = 0 then ['0'] else (natDigitsRevFuel n n).reverse

/-- Python `str` of an integer. -/
def intToChars (i : Int) : List Char :=
  if i < 0 then '-' :: natToChars (-i).toNat else natToChars i.toNat

/-- Digit characters to the number they denote (the width field of a format
spec; an absent width reads as 0 = no padding). -/
def digitsToNat (ds : List Char) : Nat :=
  ds.foldl (fun a c => a * 10 + (c.toNat - 48)) 0

/-- `f-string` right-justification `{v:F>W}`. -/
def pyRJust (s : List Char) (fill : Char) (width : Nat) : List Char :=
  if s.length < width then List.replicate (width - s.length) fill ++ s else s

/-- `f-string` left-justification `{v:F<W}`. -/
def pyLJust (s : List Char) (fill : Char) (width : Nat) : List Char :=
  if s.length < width then s ++ List.replicate (width - s.length) fill else s

/-- The padding applied by `format` to the id and data macros:
`f"{v:{filler}>{width}}"` with `filler = group(3) or default` (Python `or`:
an absent or empty fill group falls back to the default).  A fill of two or
more characters makes the dynamically-built format spec invalid and Python
raises `ValueError`. -/
def pyFormatPad (v : List Char) (g3 : Option (List Char)) (defFill : Char)
    (alignRight : Bool) (widthDigits : List Char) : Except PyErr (List Char) :=
  let fillChars : List Char :=
    match g3 with
    | Option.none => [defFill]
    | Option.some [] => [defFill]
    | Option.some f => f
  match fillChars with
  | [f] =>
    .ok (if alignRight then pyRJust v f (digitsToNat widthDigits)
         else pyLJust v f (digitsToNat widthDigits))
  | _ => .error .badFormatSpec

/-- Join with a separator (Python `sep.join`). -/
def joinSep (sep : List Char) : List (List Char) → List Char
  | [] => []
  | [x] => x
  | x :: y :: rest => x ++ sep ++ joinSep sep (y :: rest)

/-- Python `str()` of an attribute value as interpolated by
`f"{key}{sep1}{value}"`. -/
def pyStr : PyVal → List Char
  | .str s => s.toList
  | .int n => intToChars n
  | .float s => s.toList
  | .bool b => if b then "True".toList else "False".toList
  | .list ns => '[' :: (joinSep (", ".toList) (ns.map intToChars) ++ [']'])
  | .none => "None".toList

/-- `isinstance(id, int)`: Python `bool` is a subclass of `int`, so a boolean
id passes the check and indexes as 0/1. -/
def pyIntOf : PyVal → Option Int
  | .int n => Option.some n
  | .bool b => Option.some (if b then 1 else 0)
  | _ => Option.none

/-- `DEFAULT_FORMAT_STRING` (`model.py` line 24). -/
def DEFAULT_FORMAT_STRING : String :=
  "[%id(3)] \"%data()\" [%tags(\", \")] \x7b%attrs(\": \",\"; \")\x7d"

/-- One line of `Database.format`: the four substitutions applied in order to
a copy of the template, each replacing every occurrence of its match's
`group(0)` text (Python `str.replace` semantics). -/
def formatOneLine
    (mId : Option (List Char × List Char × Option (List Char)))
    (mData : Option (List Char × List Char × Option (List Char)))
    (mTags : Option (List Char × List Char))
    (mAttrs : Option (List Char × List Char × List Char))
    (tpl : List Char) (idToEmbed : Int) (entry : Record) :
    Except PyErr (List Char) :=
  match
    ((match mId with
     | Option.some (g0, w, f) =>
       match pyFormatPad (intToChars idToEmbed) f '0' true w with
       | .ok rep => .ok (pyReplace g0 rep tpl)
       | .error e => .error e
     | Option.none => .ok tpl) : Except PyErr (List Char)) with
  | .error e => .error e
  | .ok line1 =>
    match
      ((match mData with
       | Option.some (g0, w, f) =>
         match pyFormatPad entry.data.toList f ' ' false w with
         | .ok rep => .ok (pyReplace g0 rep line1)
         | .error e => .error e
       | Option.none => .ok line1) : Except PyErr (List Char)) with
    | .error e => .error e
    | .ok line2 =>
      let line3 :=
        match mTags with
        | Option.some (g0, sep) =>
          pyReplace g0 (joinSep sep (entry.tags.map String.toList)) line2
        | Option.none => line2
      let line4 :=
        match mAttrs with
        | Option.some (g0, s1, s2) =>
          pyReplace g0
            (joinSep s2 (entry.attrs.map
              (fun kv => kv.1.toList ++ s1 ++ pyStr kv.2))) line3
        | Option.none => line3
      .ok line4

/-- The loop of `Database.format`: per id, the `isinstance(id, int)` check,
the `at_index` lookup (both aborting the whole call) and the line build. -/
def formatLines (db : Database)
    (mId : Option (List Char × List Char × Option (List Char)))
    (mData : Option (List Char × List Char × Option (List Char)))
    (mTags : Option (List Char × List Char))
    (mAttrs : Option (List Char × List Char × List Char))
    (tpl : List Char) (use_real_ids : Bool) :
    Nat → List PyVal → Except PyErr (List (List Char))
  | _, [] => .ok []
  | i, id :: rest =>
    match pyIntOf id with
    | Option.none => .error (.typeMismatch "ids must be an iterable of integers")
    | Option.some idInt =>
      match db.at_index idInt with
      | .error e => .error e
      | .ok entry =>
        match formatOneLine mId mData mTags mAttrs tpl
            (if use_real_ids then idInt else (i : Int)) entry with
        | .error e => .error e
        | .ok line =>
          match formatLines db mId mData mTags mAttrs tpl use_real_ids
              (i + 1) rest with
          | .error e => .error e
          | .ok lines => .ok (line :: lines)

/-- `Database.format` (`model.py` lines 398-499): resolve the default
template, run the four `re.search`es once, then render one line per id and
join with newlines. -/
def Database.format (db : Database) (ids : List PyVal)
    (fmt_string : Option String) (use_real_ids : Bool) : Except PyErr String :=
  let tpl : List Char :=
    (match fmt_string with
     | Option.none => DEFAULT_FORMAT_STRING
     | Option.some s => s).toList
  match formatLines db
      (reSearch (matchWidthFillAt ("%id(".toList)) tpl)
      (reSearch (matchWidthFillAt ("%data(".toList)) tpl)
      (reSearch matchTagsAt tpl)
      (reSearch matchAttrsAt tpl)
      tpl use_real_ids 0 ids with
  | .error e => .error e
  | .ok lines => .ok (String.mk (joinSep ['\n'] lines))

/-- A concrete one-record database for the formatting claims. -/
def dbFmt : Database :=
  { tags := [], enforce_tags := false, backups_enabled := false,
    data := [⟨"Hello", ["greeting"], [("lang", PyVal.str "en")]⟩] }

/-- C6, counterexample: with the template `"%id() %id()"` both occurrences of
the macro are textually identical, and `str.replace` substitutes the first
match's text at **every** occurrence — the output is `"0 0"`, not the claimed
`"0 %id()"` with the second occurrence left literal. -/
theorem C6_counterexample :
    Database.format dbFmt [PyVal.int 0] (Option.some "%id() %id()") false
      = Except.ok "0 0" ∧
    ("0 0" : String) ≠ "0 %id()" := by
  exact ⟨rfl, by decide⟩

/-- C6, amended: each macro is searched at most once per template (leftmost
match); the matched text is then substituted by `str.replace`, which replaces
**every** occurrence of that exact text in the line, while an occurrence of
the same macro with different argument text than the first match is left as
literal text.  Demonstrated for every database and in-range index on the
templates `"%id() %id()"` (both identical occurrences substituted) and
`"%id() %id(1)"` (the differing second occurrence kept literal). -/
theorem C6_replace_semantics (db : Database) (i : Nat)
    (h : i < db.data.length) :
    Database.format db [PyVal.int (i : Int)] (Option.some "%id() %id()") false
      = Except.ok "0 0" ∧
    Database.format db [PyVal.int (i : Int)] (Option.some "%id() %id(1)") false
      = Except.ok "0 %id(1)" := by
  constructor <;>
    (simp only [Database.format, formatLines, pyIntOf]
     rw [at_index_ofNat h]
     rfl)

/-- Witness for C6's amended statement at a concrete input. -/
theorem C6_witness :
    Database.format dbFmt [PyVal.int ((0 : Nat) : Int)]
      (Option.some "%id() %id(1)") false = Except.ok "0 %id(1)" := by
  exact (C6_replace_semantics dbFmt 0 (by decide)).2

/-! ### JSON serialization (`json.dump(..., cls=SetEncoder)`, `model.py`
lines 139-150 and 192-199)

`json.dumps` with its defaults (`ensure_ascii=True`, separators `", "` and
`": "`) is modelled character-exactly: `"` and `\` and the five short control
escapes as two-character escapes, every other character outside `0x20..0x7E`
as lowercase `\uXXXX` (a surrogate pair for code points above `0xFFFF`), all
other characters verbatim.  The `SetEncoder` turns the vocabulary set into a
list (our canonical order). -/

/-- Lowercase hexadecimal digit. -/
def hexDig (d : Nat) : Char :=
  Char.ofNat (if d < 10 then 48 + d else 87 + d)

/-- Four lowercase hex digits of a code unit below `0x10000`. -/
def hex4 (m : Nat) : List Char :=
  [hexDig (m / 4096 % 16), hexDig (m / 256 % 16), hexDig (m / 16 % 16),
   hexDig (m % 16)]

/-- The escape of one character in `json.dumps` `ensure_ascii` output. -/
def escapeChar (c : Char) : List Char :=
  if c = '\\' then ['\\', '\\']
  else if c = '"' then ['\\', '"']
  else if c = '\x08' then ['\\', 'b']
  else if c = '\t' then ['\\', 't']
  else if c = '\n' then ['\\', 'n']
  else if c = '\x0c' then ['\\', 'f']
  else if c = '\r' then ['\\', 'r']
  else if 0x20 ≤ c.toNat ∧ c.toNat ≤ 0x7E then [c]
  else if c.toNat < 0x10000 then '\\' :: 'u' :: hex4 c.toNat
  else
    '\\' :: 'u' :: hex4 (0xD800 + (c.toNat - 0x10000) / 0x400)
      ++ '\\' :: 'u' :: hex4 (0xDC00 + (c.toNat - 0x10000) % 0x400)

/-- JSON escape of a whole string (body only). -/
def escapeStr (s : String) : List Char :=
  s.toList.foldr (fun c acc => escapeChar c ++ acc) []

/-- A JSON string literal. -/
def printStr (s : String) : List Char :=
  '"' :: (escapeStr s ++ ['"'])

/-- A JSON boolean. -/
def printBool (b : Bool) : List Char :=
  if b then "true".toList else "false".toList

/-- `json.dumps` of one attribute value.  A float is emitted as its carried
`repr` token; `None` as `null`; a list as a JSON array. -/
def printVal : PyVal → List Char
  | .str s => printStr s
  | .int n => intToChars n
  | .float fs => fs.toList
  | .bool b => printBool b
  | .list ns => '[' :: (joinSep (", ".toList) (ns.map intToChars) ++ [']'])
  | .none => "null".toList

/-- A JSON array of strings (the vocabulary and tag sets, via `SetEncoder`). -/
def printStrList (l : List String) : List Char :=
  '[' :: (joinSep (", ".toList) (l.map printStr) ++ [']'])

/-- The attrs dict of a record, keys in insertion order. -/
def printAttrs (attrs : List (String × PyVal)) : List Char :=
  '\x7b' :: (joinSep (", ".toList)
    (attrs.map (fun kv => printStr kv.1 ++ ": ".toList ++ printVal kv.2))
    ++ ['\x7d'])

/-- One record, the JSON array `[data, tags, attrs]`. -/
def printEntry (r : Record) : List Char :=
  '[' :: (printStr r.data ++ ", ".toList ++ printStrList r.tags
    ++ ", ".toList ++ printAttrs r.attrs ++ [']'])

/-- The record list. -/
def printData (data : List Record) : List Char :=
  '[' :: (joinSep (", ".toList) (data.map printEntry) ++ [']'])

/-- Modelled from the spec: the version module (`src/jsondb/version.py`,
imported at `model.py` line 10) is not under `src/`; the spec (§3, §6) says
`version` is the producer's `MAJOR.MINOR.PATCH` version string, written on
every save.  The concrete numbers are irrelevant to every claim. -/
def jsondbVersion : List Nat := [1, 0, 0]

/-- `".".join(map(str, __version__))` (`model.py` line 149). -/
def versionChars : List Char :=
  joinSep ['.'] (jsondbVersion.map natToChars)

/-- `json.dumps(self.build_structure(), cls=SetEncoder)` (`model.py` lines
143-150, 192-199): the full document as JSON text, keys in the insertion
order of `build_structure`. -/
def jsonDumps (db : Database) : String :=
  String.mk ('\x7b' :: ("\"tags\": ".toList ++ printStrList db.tags
    ++ ", \"enforce_tags\": ".toList ++ printBool db.enforce_tags
    ++ ", \"backups_enabled\": ".toList ++ printBool db.backups_enabled
    ++ ", \"data\": ".toList ++ printData db.data
    ++ ", \"version\": ".toList ++ printStr (String.mk versionChars)
    ++ ['\x7d']))

/-- `Database.save` (`model.py` lines 139-141) writes exactly this text to the
backing file. -/
def Database.saveText (db : Database) : String := jsonDumps db

/-- Model of CPython `sys.getsizeof` on the string `json.dumps` returns: the
dump is ASCII (`ensure_ascii=True`), and a compact ASCII `str` object on a
64-bit CPython occupies a 49-byte header plus one byte per character. -/
def sysGetsizeofStr (s : String) : Nat := 49 + s.length

/-- `Database.calc_bytes` (`model.py` lines 192-199):
`sys.getsizeof(json.dumps(self.build_structure(), cls=SetEncoder))` — a pure
computation on the in-memory document; nothing is written to disk. -/
def Database.calc_bytes (db : Database) : Nat :=
  sysGetsizeofStr (jsonDumps db)

/-! ### JSON number tokens and document well-formedness -/

/-- A character that can continue a JSON number token (used to state where a
number token must end). -/
def isNumCont (c : Char) : Bool :=
  c.isDigit ∨ c = '.' ∨ c = 'e' ∨ c = 'E' ∨ c = '+' ∨ c = '-'

/-- The optional leading minus of a number token. -/
def scanSign (cs : List Char) : List Char × List Char :=
  match cs with
  | '-' :: r => (['-'], r)
  | _ => ([], cs)

/-- The optional fraction `\.\d+` of a number token; a `.` not followed by a
digit is not consumed. -/
def scanFrac (cs : List Char) : List Char × List Char :=
  match cs with
  | '.' :: r =>
    if r.takeWhile Char.isDigit = [] then ([], cs)
    else ('.' :: r.takeWhile Char.isDigit, r.dropWhile Char.isDigit)
  | _ => ([], cs)

/-- The optional sign of an exponent. -/
def scanExpSign (cs : List Char) : List Char × List Char :=
  match cs with
  | '+' :: rr => (['+'], rr)
  | '-' :: rr => (['-'], rr)
  | _ => ([], cs)

/-- The optional exponent `[eE][-+]?\d+` of a number token; an `e` not
followed by (sign and) digits is not consumed. -/
def scanExp (cs : List Char) : List Char × List Char :=
  match cs with
  | e :: r =>
    if e = 'e' ∨ e = 'E' then
      if ((scanExpSign r).2.takeWhile Char.isDigit) = [] then ([], cs)
      else (e :: ((scanExpSign r).1 ++ (scanExpSign r).2.takeWhile Char.isDigit),
        (scanExpSign r).2.dropWhile Char.isDigit)
    else ([], cs)
  | [] => ([], cs)

/-- Scan a JSON number token (the `json` module's `NUMBER_RE`:
`-?\d+(\.\d+)?([eE][-+]?\d+)?`, with the integer part generalized to `\d+`)
at the head of the input; returns the token and the rest.  A `.` or `e` not
followed by digits is not consumed. -/
def numScan (cs : List Char) : Option (List Char × List Char) :=
  if (scanSign cs).2.takeWhile Char.isDigit = [] then Option.none
  else
    Option.some
      ((scanSign cs).1 ++ (scanSign cs).2.takeWhile Char.isDigit
        ++ (scanFrac ((scanSign cs).2.dropWhile Char.isDigit)).1
        ++ (scanExp (scanFrac ((scanSign cs).2.dropWhile Char.isDigit)).2).1,
       (scanExp (scanFrac ((scanSign cs).2.dropWhile Char.isDigit)).2).2)

/-- One or more digits running to the end of the token. -/
def expDigits (cs1 : List Char) : Bool :=
  !(cs1.takeWhile Char.isDigit).isEmpty && (cs1.dropWhile Char.isDigit).isEmpty

/-- The tail of an exponent: optional sign then one or more digits, ending
the token. -/
def expTailOk (cs : List Char) : Bool :=
  match cs with
  | '+' :: r => expDigits r
  | '-' :: r => expDigits r
  | _ => expDigits cs

/-- The part of a float token after the integer digits: empty-with-fraction
`\.\d+` possibly followed by an exponent, or directly an exponent. -/
def floatTail (cs2 : List Char) : Bool :=
  match cs2 with
  | '.' :: r =>
    if r.takeWhile Char.isDigit = [] then false
    else
      match r.dropWhile Char.isDigit with
      | [] => true
      | e :: r2 => if e = 'e' ∨ e = 'E' then expTailOk r2 else false
  | e :: r2 => if e = 'e' ∨ e = 'E' then expTailOk r2 else false
  | [] => false

/-- A float token body without the sign: nonempty integer digits then
`floatTail`. -/
def floatBody (cs1 : List Char) : Bool :=
  if cs1.takeWhile Char.isDigit = [] then false
  else floatTail (cs1.dropWhile Char.isDigit)

/-- Whether a float value's carried `repr` string is a canonical finite JSON
float token — a complete number token `-?\d+(\.\d+)?([eE][-+]?\d+)?` that
contains a fraction or an exponent (so `json.loads` parses it back as a float
and `float(token)` round-trips): optional minus, nonempty integer digits, then
a nonempty fraction with optional exponent, or just a nonempty exponent. -/
def isFloatToken (cs : List Char) : Bool :=
  match cs with
  | '-' :: r => floatBody r
  | _ => floatBody cs

/-- Whether an attribute value is storable and serializable in a well-formed
document: one of the four scalar types, with float `repr` strings canonical
finite tokens. -/
def attrValOk : PyVal → Bool
  | .float fs => isFloatToken fs.toList
  | .list _ => false
  | .none => false
  | _ => true

/-- The §3 data-model invariants of a Document, as needed for serialization
round-tripping: duplicate-free vocabulary (set semantics), duplicate-free
attribute keys per record (dict semantics), and scalar attribute values with
canonical float tokens. -/
def Wf (db : Database) : Prop :=
  db.tags.Nodup ∧
  ∀ r ∈ db.data,
    (r.attrs.map Prod.fst).Nodup ∧ ∀ kv ∈ r.attrs, attrValOk kv.2 = true

/-! ### The serialized text is ASCII -/

/-- Every character is in the ASCII range `json.dumps` with `ensure_ascii`
emits (`0x20..0x7E`). -/
def allAscii (cs : List Char) : Prop := ∀ c ∈ cs, c.toNat ≤ 0x7E

theorem allAscii_append {a b : List Char} (ha : allAscii a) (hb : allAscii b) :
    allAscii (a ++ b) := by
  intro c hc
  rcases List.mem_append.mp hc with h | h
  · exact ha c h
  · exact hb c h

theorem allAscii_cons {c : Char} {cs : List Char} (hc : c.toNat ≤ 0x7E)
    (h : allAscii cs) : allAscii (c :: cs) := by
  intro d hd
  rcases List.mem_cons.mp hd with rfl | hd
  · exact hc
  · exact h d hd

theorem allAscii_joinSep {sep : List Char} (hsep : allAscii sep) :
    ∀ {ls : List (List Char)}, (∀ x ∈ ls, allAscii x) →
      allAscii (joinSep sep ls)
  | [], _ => by intro c hc; cases hc
  | [x], h => by
    simpa [joinSep] using h x (List.mem_singleton.mpr rfl)
  | x :: y :: rest, h => by
    simp only [joinSep]
    exact allAscii_append
      (allAscii_append (h x (List.mem_cons_self x (y :: rest))) hsep)
      (allAscii_joinSep hsep (fun z hz => h z (List.mem_cons_of_mem x hz)))

theorem hexDig_ascii : ∀ d, d < 16 → (hexDig d).toNat ≤ 0x7E := by decide

theorem hex4_ascii (m : Nat) : allAscii (hex4 m) := by
  intro c hc
  simp only [hex4, List.mem_cons, List.not_mem_nil, or_false] at hc
  rcases hc with rfl | rfl | rfl | rfl <;>
    exact hexDig_ascii _ (Nat.mod_lt _ (by omega))

theorem allAscii_of_all {cs : List Char}
    (h : cs.all (fun c => decide (c.toNat ≤ 0x7E)) = true) : allAscii cs := by
  intro c hc
  simpa using List.all_eq_true.mp h c hc

theorem scanSign_split (cs : List Char) :
    cs = (scanSign cs).1 ++ (scanSign cs).2 ∧
      ∀ c ∈ (scanSign cs).1, isNumCont c = true := by
  unfold scanSign
  split
  · refine ⟨rfl, ?_⟩
    intro c hc
    simp only [List.mem_singleton] at hc
    subst hc
    decide
  · exact ⟨rfl, fun c hc => absurd hc (List.not_mem_nil c)⟩

theorem digit_numCont {c : Char} (h : c.isDigit = true) : isNumCont c = true := by
  simp [isNumCont, h]

theorem scanFrac_split (cs : List Char) :
    cs = (scanFrac cs).1 ++ (scanFrac cs).2 ∧
      ∀ c ∈ (scanFrac cs).1, isNumCont c = true := by
  unfold scanFrac
  split
  · rename_i r
    split
    · exact ⟨rfl, fun c hc => absurd hc (List.not_mem_nil c)⟩
    · constructor
      · simp only [List.cons_append]
        rw [List.takeWhile_append_dropWhile]
      · intro c hc
        rcases List.mem_cons.mp hc with rfl | hmem
        · decide
        · exact digit_numCont (List.mem_takeWhile_imp hmem)
  · exact ⟨rfl, fun c hc => absurd hc (List.not_mem_nil c)⟩

theorem scanExpSign_split (cs : List Char) :
    cs = (scanExpSign cs).1 ++ (scanExpSign cs).2 ∧
      ∀ c ∈ (scanExpSign cs).1, isNumCont c = true := by
  unfold scanExpSign
  split
  · refine ⟨rfl, ?_⟩
    intro c hc
    simp only [List.mem_singleton] at hc
    subst hc
    decide
  · refine ⟨rfl, ?_⟩
    intro c hc
    simp only [List.mem_singleton] at hc
    subst hc
    decide
  · exact ⟨rfl, fun c hc => absurd hc (List.not_mem_nil c)⟩

theorem scanExp_split (cs : List Char) :
    cs = (scanExp cs).1 ++ (scanExp cs).2 ∧
      ∀ c ∈ (scanExp cs).1, isNumCont c = true := by
  unfold scanExp
  split
  · rename_i e r
    split
    · rename_i he
      split
      · exact ⟨rfl, fun c hc => absurd hc (List.not_mem_nil c)⟩
      · constructor
        · simp only [List.cons_append, List.append_assoc]
          rw [List.takeWhile_append_dropWhile]
          exact congrArg (e :: ·) (scanExpSign_split r).1
        · intro c hc
          rcases List.mem_cons.mp hc with rfl | hmem
          · rcases he with rfl | rfl <;> decide
          · rcases List.mem_append.mp hmem with hs | hd
            · exact (scanExpSign_split r).2 c hs
            · exact digit_numCont (List.mem_takeWhile_imp hd)
    · exact ⟨rfl, fun c hc => absurd hc (List.not_mem_nil c)⟩
  · exact ⟨rfl, fun c hc => absurd hc (List.not_mem_nil c)⟩

theorem numScan_split {cs tok rest : List Char}
    (h : numScan cs = Option.some (tok, rest)) :
    cs = tok ++ rest ∧ ∀ c ∈ tok, isNumCont c = true := by
  unfold numScan at h
  split at h
  · cases h
  · injection h with h
    injection h with h1 h2
    subst h1
    subst h2
    constructor
    · conv =>
        lhs
        rw [(scanSign_split cs).1]
      simp only [List.append_assoc]
      congr 1
      conv =>
        lhs
        rw [← List.takeWhile_append_dropWhile (p := Char.isDigit)
          (l := (scanSign cs).2)]
      congr 1
      conv =>
        lhs
        rw [(scanFrac_split ((scanSign cs).2.dropWhile Char.isDigit)).1]
      congr 1
      exact (scanExp_split _).1
    · intro c hc
      rcases List.mem_append.mp hc with h1 | h1
      rotate_left
      · exact (scanExp_split _).2 c h1
      rcases List.mem_append.mp h1 with h2 | h2
      rotate_left
      · exact (scanFrac_split _).2 c h2
      rcases List.mem_append.mp h2 with h3 | h3
      · exact (scanSign_split cs).2 c h3
      · exact digit_numCont (List.mem_takeWhile_imp h3)

theorem digit_ascii {c : Char} (h : c.isDigit = true) : c.toNat ≤ 0x7E := by
  simp only [Char.isDigit, Bool.and_eq_true, decide_eq_true_eq] at h
  have h57 : c.val.toNat ≤ 57 :=
    UInt32.toNat_le_of_le (by decide) h.2
  exact le_trans h57 (by omega)

theorem numCont_ascii {c : Char} (h : isNumCont c = true) : c.toNat ≤ 0x7E := by
  simp only [isNumCont, Bool.or_eq_true, decide_eq_true_eq] at h
  rcases h with h | h | h | h | h | h
  · exact digit_ascii h
  all_goals (subst h; decide)

/-- The shape of an exponent part `[eE][-+]?\d+`. -/
def expShape (ep : List Char) : Prop :=
  ∃ e es eds, (e = 'e' ∨ e = 'E') ∧ (es = [] ∨ es = ['+'] ∨ es = ['-']) ∧
    eds ≠ [] ∧ eds.all Char.isDigit = true ∧ ep = e :: (es ++ eds)

theorem takeWhile_all (p : Char → Bool) (l : List Char) :
    (l.takeWhile p).all p = true := by
  rw [List.all_eq_true]
  intro c hc
  exact List.mem_takeWhile_imp hc

theorem expDigits_shape {cs1 : List Char} (h : expDigits cs1 = true) :
    cs1 ≠ [] ∧ cs1.all Char.isDigit = true := by
  unfold expDigits at h
  rw [Bool.and_eq_true] at h
  have htw : cs1.takeWhile Char.isDigit ≠ [] := by
    intro hc
    have := h.1
    rw [hc] at this
    simp at this
  have hdw : cs1.dropWhile Char.isDigit = [] := by
    have := h.2
    simpa [List.isEmpty_iff] using this
  have hsplit := List.takeWhile_append_dropWhile (p := Char.isDigit) (l := cs1)
  rw [hdw, List.append_nil] at hsplit
  constructor
  · rw [← hsplit]
    exact htw
  · rw [← hsplit]
    exact takeWhile_all _ _

theorem expTailOk_shape {r : List Char} (h : expTailOk r = true) :
    ∃ es eds, (es = [] ∨ es = ['+'] ∨ es = ['-']) ∧ eds ≠ [] ∧
      eds.all Char.isDigit = true ∧ r = es ++ eds := by
  unfold expTailOk at h
  split at h
  · rename_i rr
    obtain ⟨hne, hdig⟩ := expDigits_shape h
    exact ⟨['+'], rr, Or.inr (Or.inl rfl), hne, hdig, rfl⟩
  · rename_i rr
    obtain ⟨hne, hdig⟩ := expDigits_shape h
    exact ⟨['-'], rr, Or.inr (Or.inr rfl), hne, hdig, rfl⟩
  · obtain ⟨hne, hdig⟩ := expDigits_shape h
    exact ⟨[], r, Or.inl rfl, hne, hdig, by simp⟩

/-- The three shapes of the part of a float token following the integer
digits. -/
def tailShape (tail : List Char) : Prop :=
  (∃ fp, fp ≠ [] ∧ fp.all Char.isDigit = true ∧ tail = '.' :: fp) ∨
  (∃ ep, expShape ep ∧ tail = ep) ∨
  (∃ fp ep, fp ≠ [] ∧ fp.all Char.isDigit = true ∧ expShape ep ∧
    tail = '.' :: (fp ++ ep))

theorem floatTail_shape {cs2 : List Char} (h : floatTail cs2 = true) :
    tailShape cs2 := by
  unfold floatTail at h
  split at h
  · rename_i r
    split at h
    · cases h
    · rename_i hfp
      split at h
      · rename_i hdrop
        refine Or.inl ⟨r.takeWhile Char.isDigit, hfp, takeWhile_all _ _, ?_⟩
        conv =>
          lhs
          rw [show r = r.takeWhile Char.isDigit ++ r.dropWhile Char.isDigit from
            (List.takeWhile_append_dropWhile (p := Char.isDigit) (l := r)).symm]
        rw [hdrop]
        simp
      · rename_i e r2 hdrop
        split at h
        · rename_i he
          obtain ⟨es, eds, hes, hne, hdig, hr2⟩ := expTailOk_shape h
          refine Or.inr (Or.inr ⟨r.takeWhile Char.isDigit, e :: (es ++ eds),
            hfp, takeWhile_all _ _, ⟨e, es, eds, he, hes, hne, hdig, rfl⟩, ?_⟩)
          conv =>
            lhs
            rw [show r = r.takeWhile Char.isDigit ++ r.dropWhile Char.isDigit from
              (List.takeWhile_append_dropWhile (p := Char.isDigit) (l := r)).symm]
          rw [hdrop, hr2]
        · cases h
  · rename_i e r2 hne
    split at h
    · rename_i he
      obtain ⟨es, eds, hes, hne2, hdig, hr2⟩ := expTailOk_shape h
      exact Or.inr (Or.inl ⟨e :: (es ++ eds),
        ⟨e, es, eds, he, hes, hne2, hdig, rfl⟩, by rw [hr2]⟩)
    · cases h
  · cases h

theorem floatBody_shape {cs1 : List Char} (h : floatBody cs1 = true) :
    ∃ ds tail, cs1 = ds ++ tail ∧ ds ≠ [] ∧ ds.all Char.isDigit = true ∧
      tailShape tail := by
  unfold floatBody at h
  split at h
  · cases h
  · rename_i hip
    exact ⟨cs1.takeWhile Char.isDigit, cs1.dropWhile Char.isDigit,
      (List.takeWhile_append_dropWhile Char.isDigit cs1).symm, hip,
      takeWhile_all _ _, floatTail_shape h⟩

theorem floatToken_shape {cs : List Char} (h : isFloatToken cs = true) :
    ∃ sgn ds tail,
      cs = sgn ++ (ds ++ tail) ∧ (sgn = [] ∨ sgn = ['-']) ∧ ds ≠ [] ∧
      ds.all Char.isDigit = true ∧ tailShape tail := by
  unfold isFloatToken at h
  split at h
  · rename_i r
    obtain ⟨ds, tail, hr, hne, hdig, hts⟩ := floatBody_shape h
    exact ⟨['-'], ds, tail, by rw [hr]; rfl, Or.inr rfl, hne, hdig, hts⟩
  · obtain ⟨ds, tail, hr, hne, hdig, hts⟩ := floatBody_shape h
    exact ⟨[], ds, tail, by rw [hr]; rfl, Or.inl rfl, hne, hdig, hts⟩

theorem expShape_ascii {ep : List Char} (h : expShape ep) : allAscii ep := by
  obtain ⟨e, es, eds, he, hes, _, hdig, rfl⟩ := h
  refine allAscii_cons ?_ (allAscii_append ?_ ?_)
  · rcases he with rfl | rfl <;> decide
  · rcases hes with rfl | rfl | rfl <;> exact allAscii_of_all (by decide)
  · intro c hc
    exact digit_ascii (List.all_eq_true.mp hdig c hc)

theorem tailShape_ascii {tail : List Char} (h : tailShape tail) :
    allAscii tail := by
  rcases h with ⟨fp, _, hdig, rfl⟩ | ⟨ep, hep, rfl⟩ | ⟨fp, ep, _, hdig, hep, rfl⟩
  · refine allAscii_cons (by decide) ?_
    intro c hc
    exact digit_ascii (List.all_eq_true.mp hdig c hc)
  · exact expShape_ascii hep
  · refine allAscii_cons (by decide) (allAscii_append ?_ (expShape_ascii hep))
    intro c hc
    exact digit_ascii (List.all_eq_true.mp hdig c hc)

theorem floatToken_allAscii {cs : List Char} (h : isFloatToken cs = true) :
    allAscii cs := by
  obtain ⟨sgn, ds, tail, rfl, hsgn, _, hdig, hts⟩ := floatToken_shape h
  refine allAscii_append ?_ (allAscii_append ?_ (tailShape_ascii hts))
  · rcases hsgn with rfl | rfl
    · exact fun c hc => absurd hc (List.not_mem_nil c)
    · exact allAscii_of_all (by decide)
  · intro c hc
    exact digit_ascii (List.all_eq_true.mp hdig c hc)

theorem floatToken_ascii {s : String} (h : isFloatToken s.toList = true) :
    allAscii s.toList := floatToken_allAscii h

theorem escapeChar_ascii (c : Char) : allAscii (escapeChar c) := by
  unfold escapeChar
  split
  · exact allAscii_of_all (by decide)
  split
  · exact allAscii_of_all (by decide)
  split
  · exact allAscii_of_all (by decide)
  split
  · exact allAscii_of_all (by decide)
  split
  · exact allAscii_of_all (by decide)
  split
  · exact allAscii_of_all (by decide)
  split
  · exact allAscii_of_all (by decide)
  split
  · rename_i hr
    intro d hd
    rcases List.mem_singleton.mp hd with rfl
    exact hr.2
  split
  · intro d hd
    rcases List.mem_cons.mp hd with rfl | hd
    · decide
    rcases List.mem_cons.mp hd with rfl | hd
    · decide
    exact hex4_ascii _ d hd
  · intro d hd
    rcases List.mem_cons.mp hd with rfl | hd
    · decide
    rcases List.mem_cons.mp hd with rfl | hd
    · decide
    rcases List.mem_append.mp hd with hd | hd
    · exact hex4_ascii _ d hd
    rcases List.mem_cons.mp hd with rfl | hd
    · decide
    rcases List.mem_cons.mp hd with rfl | hd
    · decide
    exact hex4_ascii _ d hd

theorem escapeStr_ascii (s : String) : allAscii (escapeStr s) := by
  unfold escapeStr
  generalize s.toList = l
  induction l with
  | nil => exact fun c hc => absurd hc (List.not_mem_nil c)
  | cons c cs ih =>
    simp only [List.foldr_cons]
    exact allAscii_append (escapeChar_ascii c) ih

theorem printStr_ascii (s : String) : allAscii (printStr s) := by
  unfold printStr
  intro c hc
  rcases List.mem_cons.mp hc with rfl | hc
  · decide
  rcases List.mem_append.mp hc with hc | hc
  · exact escapeStr_ascii s c hc
  · rcases List.mem_singleton.mp hc with rfl
    decide

theorem printBool_ascii (b : Bool) : allAscii (printBool b) := by
  cases b <;> exact allAscii_of_all (by decide)

theorem digitChar10_mod_ascii (d : Nat) : (digitChar10 (d % 10)).toNat ≤ 0x7E := by
  have hlt : d % 10 < 10 := Nat.mod_lt _ (by omega)
  revert hlt
  generalize d % 10 = k
  revert k
  decide

theorem natDigitsRevFuel_ascii (fuel : Nat) :
    ∀ n, allAscii (natDigitsRevFuel fuel n) := by
  induction fuel with
  | zero => intro n c hc; cases hc
  | succ f ih =>
    intro n c hc
    unfold natDigitsRevFuel at hc
    split at hc
    · cases hc
    · rcases List.mem_cons.mp hc with rfl | hc
      · exact digitChar10_mod_ascii n
      · exact ih _ c hc

theorem natToChars_ascii (n : Nat) : allAscii (natToChars n) := by
  unfold natToChars
  split
  · exact allAscii_of_all (by decide)
  · intro c hc
    exact natDigitsRevFuel_ascii n n c (List.mem_reverse.mp hc)

theorem intToChars_ascii (i : Int) : allAscii (intToChars i) := by
  unfold intToChars
  split
  · intro c hc
    rcases List.mem_cons.mp hc with rfl | hc
    · decide
    · exact natToChars_ascii _ c hc
  · exact natToChars_ascii _

theorem printVal_ascii {v : PyVal} (h : attrValOk v = true) :
    allAscii (printVal v) := by
  cases v with
  | str s => exact printStr_ascii s
  | int n => exact intToChars_ascii n
  | float fs => exact floatToken_ascii h
  | bool b => exact printBool_ascii b
  | list ns => exact absurd h (by simp [attrValOk])
  | none => exact absurd h (by simp [attrValOk])

theorem printStrList_ascii (l : List String) : allAscii (printStrList l) := by
  unfold printStrList
  intro c hc
  rcases List.mem_cons.mp hc with rfl | hc
  · decide
  rcases List.mem_append.mp hc with hc | hc
  · refine allAscii_joinSep (allAscii_of_all (by decide)) ?_ c hc
    intro x hx
    obtain ⟨s, _, rfl⟩ := List.mem_map.mp hx
    exact printStr_ascii s
  · rcases List.mem_singleton.mp hc with rfl
    decide

theorem printAttrs_ascii {attrs : List (String × PyVal)}
    (h : ∀ kv ∈ attrs, attrValOk kv.2 = true) : allAscii (printAttrs attrs) := by
  unfold printAttrs
  intro c hc
  rcases List.mem_cons.mp hc with rfl | hc
  · decide
  rcases List.mem_append.mp hc with hc | hc
  · refine allAscii_joinSep (allAscii_of_all (by decide)) ?_ c hc
    intro x hx
    obtain ⟨kv, hkv, rfl⟩ := List.mem_map.mp hx
    exact allAscii_append
      (allAscii_append (printStr_ascii kv.1) (allAscii_of_all (by decide)))
      (printVal_ascii (h kv hkv))
  · rcases List.mem_singleton.mp hc with rfl
    decide

theorem printEntry_ascii {r : Record}
    (h : ∀ kv ∈ r.attrs, attrValOk kv.2 = true) :
    allAscii (printEntry r) := by
  unfold printEntry
  refine allAscii_cons (by decide) ?_
  exact allAscii_append
    (allAscii_append
      (allAscii_append
        (allAscii_append
          (allAscii_append (printStr_ascii r.data) (allAscii_of_all (by decide)))
          (printStrList_ascii r.tags))
        (allAscii_of_all (by decide)))
      (printAttrs_ascii h))
    (allAscii_of_all (by decide))

theorem printData_ascii {data : List Record}
    (h : ∀ r ∈ data, ∀ kv ∈ r.attrs, attrValOk kv.2 = true) :
    allAscii (printData data) := by
  unfold printData
  intro c hc
  rcases List.mem_cons.mp hc with rfl | hc
  · decide
  rcases List.mem_append.mp hc with hc | hc
  · refine allAscii_joinSep (allAscii_of_all (by decide)) ?_ c hc
    intro x hx
    obtain ⟨r, hr, rfl⟩ := List.mem_map.mp hx
    exact printEntry_ascii (h r hr)
  · rcases List.mem_singleton.mp hc with rfl
    decide

theorem jsonDumps_ascii {db : Database} (h : Wf db) :
    allAscii (jsonDumps db).toList := by
  unfold jsonDumps
  show allAscii _
  refine allAscii_cons (by decide) ?_
  exact allAscii_append
    (allAscii_append
      (allAscii_append
        (allAscii_append
          (allAscii_append
            (allAscii_append
              (allAscii_append
                (allAscii_append
                  (allAscii_append
                    (allAscii_append (allAscii_of_all (by decide))
                      (printStrList_ascii db.tags))
                    (allAscii_of_all (by decide)))
                  (printBool_ascii db.enforce_tags))
                (allAscii_of_all (by decide)))
              (printBool_ascii db.backups_enabled))
            (allAscii_of_all (by decide)))
          (printData_ascii (fun r hr => (h.2 r hr).2)))
        (allAscii_of_all (by decide)))
      (printStr_ascii _))
    (allAscii_of_all (by decide))

theorem utf8Size_of_ascii {c : Char} (h : c.toNat ≤ 0x7E) : c.utf8Size = 1 := by
  unfold Char.utf8Size
  rw [if_pos]
  show c.val ≤ _
  rw [UInt32.le_def, BitVec.le_def]
  exact le_trans h (by decide)

theorem utf8ByteSize_go_of_ascii {l : List Char} (h : allAscii l) :
    String.utf8ByteSize.go l = l.length := by
  induction l with
  | nil => rfl
  | cons c cs ih =>
    simp only [String.utf8ByteSize.go, List.length_cons]
    rw [ih (fun d hd => h d (List.mem_cons_of_mem c hd)),
      utf8Size_of_ascii (h c (List.mem_cons_self c cs))]

theorem utf8ByteSize_of_ascii {s : String} (h : allAscii s.toList) :
    s.utf8ByteSize = s.length := by
  cases s with
  | mk l => exact utf8ByteSize_go_of_ascii h

/-- C5, counterexample: on the empty database, `calc_bytes` does not return
the byte length of the serialized JSON text — it returns `sys.getsizeof` of
the dump string, which includes the CPython string object header. -/
theorem C5_counterexample :
    Database.calc_bytes Database.empty
      ≠ (Database.saveText Database.empty).utf8ByteSize := by
  decide

/-- C5, amended: `size_bytes()` returns the in-memory object size of the JSON
serialization — a fixed 49-byte CPython string header plus the byte length of
exactly the text `save()` would write (the dump is ASCII, so bytes equal
characters) — and never equals the byte length itself.  It writes nothing to
disk: it is a pure function of the document. -/
theorem C5_getsizeof_not_length (db : Database) (h : Wf db) :
    Database.calc_bytes db = 49 + (Database.saveText db).utf8ByteSize ∧
    (Database.saveText db).utf8ByteSize = (Database.saveText db).length ∧
    Database.calc_bytes db ≠ (Database.saveText db).utf8ByteSize := by
  have hsize : (Database.saveText db).utf8ByteSize
      = (Database.saveText db).length :=
    utf8ByteSize_of_ascii (jsonDumps_ascii h)
  have h2 : Database.calc_bytes db = 49 + (Database.saveText db).length := rfl
  refine ⟨?_, hsize, ?_⟩
  · rw [h2, hsize]
  · rw [h2, hsize]
    omega

/-- Witness for C5's amended statement at a concrete input. -/
theorem C5_witness :
    Database.calc_bytes Database.empty
      = 49 + (Database.saveText Database.empty).utf8ByteSize := by
  exact (C5_getsizeof_not_length Database.empty
    ⟨List.nodup_nil, fun r hr => absurd hr (List.not_mem_nil r)⟩).1

/-! ### Backup rotation (`Database.open`, `model.py` lines 98-132) -/

/-- The backup file name written by `open`:
`.jsondb_backup_{stem}_{timestamp}.jsondb`. -/
def backupName (stem : String) (ts : Nat) : String :=
  ".jsondb_backup_" ++ stem ++ "_" ++ String.mk (natToChars ts) ++ ".jsondb"

/-- Python `str.split(sep)` for a one-character separator: no collapsing,
empty pieces kept. -/
def splitOnCh (sep : Char) : List Char → List (List Char)
  | [] => [[]]
  | c :: rest =>
    match splitOnCh sep rest with
    | [] => [[c]]
    | h :: t => if c = sep then [] :: h :: t else (c :: h) :: t

/-- Model of Python `int(str)` on the timestamp segment: optional surrounding
whitespace, an optional sign, then decimal digits; anything else raises
`ValueError` (modelled as `none`). -/
def pyParseIntChars (cs : List Char) : Option Int :=
  let cs2 := ((cs.dropWhile pyIsSpace).reverse.dropWhile pyIsSpace).reverse
  match cs2 with
  | '-' :: ds =>
    if ds ≠ [] ∧ ds.all Char.isDigit then Option.some (-(digitsToNat ds : Int))
    else Option.none
  | '+' :: ds =>
    if ds ≠ [] ∧ ds.all Char.isDigit then Option.some (digitsToNat ds : Int)
    else Option.none
  | ds =>
    if ds ≠ [] ∧ ds.all Char.isDigit then Option.some (digitsToNat ds : Int)
    else Option.none

/-- `int(file.name.split(".")[1].split("_")[-1])` (`model.py` line 118): the
embedded timestamp of a backup file name, `none` when it fails to parse.  (The
`[1]` access cannot fail on a name that passed the `startswith` check, which
guarantees a leading dot and hence at least two `.`-pieces.) -/
def backupTimestamp (name : String) : Option Int :=
  match (splitOnCh '.' name.toList)[1]? with
  | Option.some p =>
    match (splitOnCh '_' p).getLast? with
    | Option.some last => pyParseIntChars last
    | Option.none => Option.none
  | Option.none => Option.none

/-- Stable insertion into a value-sorted list: an element goes before the
first strictly greater key, after equal keys already present. -/
def insertByVal (p : String × Int) : List (String × Int) → List (String × Int)
  | [] => [p]
  | q :: rest =>
    if p.2 ≤ q.2 then p :: q :: rest else q :: insertByVal p rest

/-- Python `sorted(..., key=lambda item: item[1])`: stable, ascending by
value. -/
def pySortByVal (l : List (String × Int)) : List (String × Int) :=
  l.foldr insertByVal []

/-- Whether a directory entry is counted by the rotation scan: name matches
`startswith(f".jsondb_backup_{stem}_")` and its timestamp segment parses. -/
def isValidBackup (stem : String) (f : String) : Bool :=
  (".jsondb_backup_" ++ stem ++ "_").toList.isPrefixOf f.toList
    && (backupTimestamp f).isSome

/-- The backup block of `Database.open` (`model.py` lines 98-132), acting on
the backup directory contents (`files`, in listing order): write the new
timestamped backup (append when absent, truncate in place when present), then
collect the valid backup files with their timestamps, and if they exceed the
retention count delete the oldest (ascending by timestamp, stable) until
exactly `keep` remain.  Returns the directory contents afterwards. -/
def backupRotate (files : List String) (stem : String) (now : Nat)
    (keep : Nat) : List String :=
  let newName := backupName stem now
  let files1 := if newName ∈ files then files else files ++ [newName]
  let valid : List (String × Int) := files1.filterMap (fun f =>
    if (".jsondb_backup_" ++ stem ++ "_").toList.isPrefixOf f.toList then
      match backupTimestamp f with
      | Option.some t => Option.some (f, t)
      | Option.none => Option.none
    else Option.none)
  if valid.length > keep then
    let deleted := ((pySortByVal valid).take (valid.length - keep)).map Prod.fst
    files1.filter (fun f => f ∉ deleted)
  else files1

/-- The 60 pre-existing valid backups of the C10 scenario, timestamps 1..60. -/
def preBackups : List String :=
  (List.range 60).map (fun i => backupName "db" (i + 1))

/-- Two files the rotation must ignore: one that does not match the naming
pattern and one whose timestamp segment does not parse. -/
def extraFiles : List String :=
  ["notbackup.txt", ".jsondb_backup_db_xx.jsondb"]

/-- C10, counterexample: in the claim's scenario (60 valid backups with
timestamps 1..60, all older than the current time 100, retention 50), the file
with timestamp 11 is one of the "50 newest pre-existing" files the claim says
are kept — but the code deletes the 11 oldest of the 61 files present after
writing the new backup, so timestamp 11 is deleted: only 49 pre-existing files
survive. -/
theorem C10_counterexample :
    backupName "db" 11 ∈ preBackups ∧
    isValidBackup "db" (backupName "db" 11) = true ∧
    backupName "db" 11 ∉ backupRotate (extraFiles ++ preBackups) "db" 100 50 := by
  refine ⟨by decide, by decide, by decide⟩

/-- C10, amended: in the scenario, one rotation leaves exactly 50
pattern-matching files — the newly written backup plus the **49** newest
pre-existing ones, the 11 oldest by embedded timestamp having been deleted;
files not matching the pattern or with unparseable timestamps are neither
counted nor deleted (both ignored files survive). -/
theorem C10_rotation_keeps_49 :
    backupRotate (extraFiles ++ preBackups) "db" 100 50
      = extraFiles ++ (List.range 49).map (fun i => backupName "db" (i + 12))
        ++ [backupName "db" 100] ∧
    ((backupRotate (extraFiles ++ preBackups) "db" 100 50).filter
      (fun f => isValidBackup "db" f)).length = 50 := by
  refine ⟨by decide, by decide⟩

/-! ### Deserialization (`json.loads` + `Database.open`, `model.py` lines
76-96)

A recursive-descent parser for the document text `save` produces, modelling
`json.loads` on that grammar: full string unescaping (including `\uXXXX` and
surrogate pairs), number classification (fraction/exponent makes a float,
whose token is kept verbatim as the carried `repr`), and last-wins dict
building.  Whitespace handling is specialized to the exact separators
`json.dump` emits (`json.loads` accepts more); lone-surrogate escapes, which
no dump of a document produces, are rejected rather than decoded. -/

/-- The value of a hexadecimal digit (both cases). -/
def hexVal (c : Char) : Option Nat :=
  if '0' ≤ c ∧ c ≤ '9' then Option.some (c.toNat - 48)
  else if 'a' ≤ c ∧ c ≤ 'f' then Option.some (c.toNat - 87)
  else if 'A' ≤ c ∧ c ≤ 'F' then Option.some (c.toNat - 55)
  else Option.none

/-- Four hex digits to their value. -/
def hex4Val (a b c d : Char) : Option Nat :=
  match hexVal a, hexVal b, hexVal c, hexVal d with
  | Option.some x, Option.some y, Option.some z, Option.some w =>
    Option.some (((x * 16 + y) * 16 + z) * 16 + w)
  | _, _, _, _ => Option.none

/-- The body of a JSON string after the opening quote: decoded characters and
the rest after the closing quote.  Fuel-recursive (one unit per decoded
character; the input length always suffices). -/
def parseStrBodyF : Nat → List Char → Option (List Char × List Char)
  | 0, _ => Option.none
  | _ + 1, [] => Option.none
  | fuel + 1, c :: cs =>
    if c = '"' then Option.some ([], cs)
    else if c = '\\' then
      match cs with
      | [] => Option.none
      | e :: cs2 =>
        if e = '"' then
          (parseStrBodyF fuel cs2).map (fun p => ('"' :: p.1, p.2))
        else if e = '\\' then
          (parseStrBodyF fuel cs2).map (fun p => ('\\' :: p.1, p.2))
        else if e = '/' then
          (parseStrBodyF fuel cs2).map (fun p => ('/' :: p.1, p.2))
        else if e = 'b' then
          (parseStrBodyF fuel cs2).map (fun p => ('\x08' :: p.1, p.2))
        else if e = 'f' then
          (parseStrBodyF fuel cs2).map (fun p => ('\x0c' :: p.1, p.2))
        else if e = 'n' then
          (parseStrBodyF fuel cs2).map (fun p => ('\n' :: p.1, p.2))
        else if e = 'r' then
          (parseStrBodyF fuel cs2).map (fun p => ('\r' :: p.1, p.2))
        else if e = 't' then
          (parseStrBodyF fuel cs2).map (fun p => ('\t' :: p.1, p.2))
        else if e = 'u' then
          match cs2 with
          | h1 :: h2 :: h3 :: h4 :: cs3 =>
            match hex4Val h1 h2 h3 h4 with
            | Option.some m =>
              if 0xD800 ≤ m ∧ m ≤ 0xDBFF then
                match cs3 with
                | '\\' :: 'u' :: k1 :: k2 :: k3 :: k4 :: cs4 =>
                  match hex4Val k1 k2 k3 k4 with
                  | Option.some m2 =>
                    if 0xDC00 ≤ m2 ∧ m2 ≤ 0xDFFF then
                      (parseStrBodyF fuel cs4).map (fun p =>
                        (Char.ofNat
                          (0x10000 + (m - 0xD800) * 0x400 + (m2 - 0xDC00))
                          :: p.1, p.2))
                    else Option.none
                  | Option.none => Option.none
                | _ => Option.none
              else if 0xDC00 ≤ m ∧ m ≤ 0xDFFF then Option.none
              else (parseStrBodyF fuel cs3).map (fun p =>
                (Char.ofNat m :: p.1, p.2))
            | Option.none => Option.none
          | _ => Option.none
        else Option.none
    else if c.toNat < 0x20 then Option.none
    else (parseStrBodyF fuel cs).map (fun p => (c :: p.1, p.2))

/-- A JSON string literal: opening quote, body, closing quote. -/
def parseJStr (cs : List Char) : Option (String × List Char) :=
  match cs with
  | '"' :: rest =>
    (parseStrBodyF (rest.length + 1) rest).map (fun p => (String.mk p.1, p.2))
  | _ => Option.none

/-- `true` / `false`. -/
def parseJBool (cs : List Char) : Option (Bool × List Char) :=
  match cs with
  | 't' :: 'r' :: 'u' :: 'e' :: rest => Option.some (true, rest)
  | 'f' :: 'a' :: 'l' :: 's' :: 'e' :: rest => Option.some (false, rest)
  | _ => Option.none

/-- A scalar JSON value at an attribute position: a string, boolean or
number; a number with fraction or exponent is a float whose consumed token is
kept verbatim as the carried `repr`. -/
def parseVal (cs : List Char) : Option (PyVal × List Char) :=
  match cs with
  | '"' :: _ => (parseJStr cs).map (fun p => (PyVal.str p.1, p.2))
  | 't' :: 'r' :: 'u' :: 'e' :: rest => Option.some (PyVal.bool true, rest)
  | 'f' :: 'a' :: 'l' :: 's' :: 'e' :: rest =>
    Option.some (PyVal.bool false, rest)
  | _ =>
    match numScan cs with
    | Option.some (tok, rest) =>
      if tok.any (fun c => c = '.' ∨ c = 'e' ∨ c = 'E') then
        Option.some (PyVal.float (String.mk tok), rest)
      else
        match tok with
        | '-' :: ds => Option.some (PyVal.int (-(digitsToNat ds : Int)), rest)
        | ds => Option.some (PyVal.int (digitsToNat ds : Int), rest)
    | Option.none => Option.none

/-- The items of a string array after the first, each preceded by `", "`,
closed by `]`. -/
def parseJStrTail : Nat → List Char → Option (List String × List Char)
  | 0, _ => Option.none
  | _ + 1, ']' :: rest => Option.some ([], rest)
  | fuel + 1, ',' :: ' ' :: rest =>
    match parseJStr rest with
    | Option.some (s, rest2) =>
      (parseJStrTail fuel rest2).map (fun p => (s :: p.1, p.2))
    | Option.none => Option.none
  | _, _ => Option.none

/-- A JSON array of strings as printed by the dump. -/
def parseStrList (cs : List Char) : Option (List String × List Char) :=
  match cs with
  | '[' :: ']' :: rest => Option.some ([], rest)
  | '[' :: rest =>
    match parseJStr rest with
    | Option.some (s, rest2) =>
      (parseJStrTail rest2.length rest2).map (fun p => (s :: p.1, p.2))
    | Option.none => Option.none
  | _ => Option.none

/-- Python `dict.__setitem__`: replace in place when the key exists, else
append. -/
def pyDictSet (d : List (String × PyVal)) (k : String) (v : PyVal) :
    List (String × PyVal) :=
  if k ∈ d.map Prod.fst then
    d.map (fun kv => if kv.1 = k then (k, v) else kv)
  else d ++ [(k, v)]

/-- The dict `json.loads` builds from an object's key/value pairs, in file
order, last occurrence of a duplicate key winning. -/
def pyDictFromPairs (ps : List (String × PyVal)) : List (String × PyVal) :=
  ps.foldl (fun d kv => pyDictSet d kv.1 kv.2) []

/-- One `"key": value` pair. -/
def parseAttrPair (cs : List Char) : Option ((String × PyVal) × List Char) :=
  match parseJStr cs with
  | Option.some (k, rest) =>
    match rest with
    | ':' :: ' ' :: rest2 => (parseVal rest2).map (fun p => ((k, p.1), p.2))
    | _ => Option.none
  | Option.none => Option.none

/-- The pairs of an attrs object after the first, each preceded by `", "`,
closed by `}`. -/
def parseAttrsTail : Nat → List Char →
    Option (List (String × PyVal) × List Char)
  | 0, _ => Option.none
  | _ + 1, '\x7d' :: rest => Option.some ([], rest)
  | fuel + 1, ',' :: ' ' :: rest =>
    match parseAttrPair rest with
    | Option.some (kv, rest2) =>
      (parseAttrsTail fuel rest2).map (fun p => (kv :: p.1, p.2))
    | Option.none => Option.none
  | _, _ => Option.none

/-- An attrs object, built into a dict. -/
def parseAttrs (cs : List Char) :
    Option (List (String × PyVal) × List Char) :=
  match cs with
  | '\x7b' :: '\x7d' :: rest => Option.some ([], rest)
  | '\x7b' :: rest =>
    match parseAttrPair rest with
    | Option.some (kv, rest2) =>
      (parseAttrsTail rest2.length rest2).map
        (fun p => (pyDictFromPairs (kv :: p.1), p.2))
    | Option.none => Option.none
  | _ => Option.none

/-- One record `[data, tags, attrs]`.  The tags stay the plain list read from
the file (`open` applies no `set()` to record tags). -/
def parseEntry (cs : List Char) : Option (Record × List Char) :=
  match cs with
  | '[' :: rest =>
    match parseJStr rest with
    | Option.some (d, r1) =>
      match r1 with
      | ',' :: ' ' :: r2 =>
        match parseStrList r2 with
        | Option.some (tg, r3) =>
          match r3 with
          | ',' :: ' ' :: r4 =>
            match parseAttrs r4 with
            | Option.some (at_, r5) =>
              match r5 with
              | ']' :: r6 => Option.some (⟨d, tg, at_⟩, r6)
              | _ => Option.none
            | Option.none => Option.none
          | _ => Option.none
        | Option.none => Option.none
      | _ => Option.none
    | Option.none => Option.none
  | _ => Option.none

/-- The entries of the data array after the first. -/
def parseDataTail : Nat → List Char → Option (List Record × List Char)
  | 0, _ => Option.none
  | _ + 1, ']' :: rest => Option.some ([], rest)
  | fuel + 1, ',' :: ' ' :: rest =>
    match parseEntry rest with
    | Option.some (r, rest2) =>
      (parseDataTail fuel rest2).map (fun p => (r :: p.1, p.2))
    | Option.none => Option.none
  | _, _ => Option.none

/-- The record array. -/
def parseData (cs : List Char) : Option (List Record × List Char) :=
  match cs with
  | '[' :: ']' :: rest => Option.some ([], rest)
  | '[' :: rest =>
    match parseEntry rest with
    | Option.some (r, rest2) =>
      (parseDataTail rest2.length rest2).map (fun p => (r :: p.1, p.2))
    | Option.none => Option.none
  | _ => Option.none

/-- `tuple(map(int, structure["version"].split(".")))` (`model.py` line 85)
must not raise: every dot-separated piece of the stored version string parses
as an integer. -/
def versionParses (v : String) : Bool :=
  (splitOnCh '.' v.toList).all (fun p => (pyParseIntChars p).isSome)

/-- `Database.open`'s in-memory reconstruction (`model.py` lines 76-96): parse
the document text, apply `set()` to the vocabulary list, keep the flags, keep
the record list as read, and require the version comparison not to raise.
Backup handling is modelled separately (`backupRotate`); the filesystem is
outside the document state. -/
def openOfText (s : String) : Option Database :=
  match stripLeading ("\x7b\"tags\": ".toList) s.toList with
  | Option.none => Option.none
  | Option.some r1 =>
    match parseStrList r1 with
    | Option.none => Option.none
    | Option.some (tags, r2) =>
      match stripLeading (", \"enforce_tags\": ".toList) r2 with
      | Option.none => Option.none
      | Option.some r3 =>
        match parseJBool r3 with
        | Option.none => Option.none
        | Option.some (enf, r4) =>
          match stripLeading (", \"backups_enabled\": ".toList) r4 with
          | Option.none => Option.none
          | Option.some r5 =>
            match parseJBool r5 with
            | Option.none => Option.none
            | Option.some (bak, r6) =>
              match stripLeading (", \"data\": ".toList) r6 with
              | Option.none => Option.none
              | Option.some r7 =>
                match parseData r7 with
                | Option.none => Option.none
                | Option.some (data, r8) =>
                  match stripLeading (", \"version\": ".toList) r8 with
                  | Option.none => Option.none
                  | Option.some r9 =>
                    match parseJStr r9 with
                    | Option.none => Option.none
                    | Option.some (ver, r10) =>
                      if r10 = ['\x7d'] ∧ versionParses ver then
                        Option.some
                          { tags := pySet tags, enforce_tags := enf,
                            backups_enabled := bak, data := data }
                      else Option.none

instance (db : Database) : Decidable (Wf db) := by
  unfold Wf
  infer_instance

theorem hexVal_hexDig : ∀ d, d < 16 → hexVal (hexDig d) = Option.some d := by
  decide

theorem hex4Val_hex4 {m : Nat} (h : m < 0x10000) :
    hex4Val (hexDig (m / 4096 % 16)) (hexDig (m / 256 % 16))
      (hexDig (m / 16 % 16)) (hexDig (m % 16)) = Option.some m := by
  unfold hex4Val
  rw [hexVal_hexDig _ (Nat.mod_lt _ (by omega)),
    hexVal_hexDig _ (Nat.mod_lt _ (by omega)),
    hexVal_hexDig _ (Nat.mod_lt _ (by omega)),
    hexVal_hexDig _ (Nat.mod_lt _ (by omega))]
  simp only [Option.some.injEq]
  omega

theorem char_toNat_valid (c : Char) :
    c.toNat < 0xD800 ∨ (0xDFFF < c.toNat ∧ c.toNat < 0x110000) := c.valid

theorem psb_quote (f : Nat) (X : List Char) :
    parseStrBodyF (f + 1) ('"' :: X) = Option.some ([], X) := by
  simp [parseStrBodyF]

theorem psb_raw (f : Nat) (c : Char) (X : List Char) (h1 : ¬ c = '"')
    (h2 : ¬ c = '\\') (h3 : ¬ c.toNat < 0x20) :
    parseStrBodyF (f + 1) (c :: X)
      = (parseStrBodyF f X).map (fun p => (c :: p.1, p.2)) := by
  simp only [parseStrBodyF]
  rw [if_neg h1, if_neg h2, if_neg h3]

theorem psb_escQuote (f : Nat) (X : List Char) :
    parseStrBodyF (f + 1) ('\\' :: '"' :: X)
      = (parseStrBodyF f X).map (fun p => ('"' :: p.1, p.2)) := by
  simp [parseStrBodyF]

theorem psb_escBack (f : Nat) (X : List Char) :
    parseStrBodyF (f + 1) ('\\' :: '\\' :: X)
      = (parseStrBodyF f X).map (fun p => ('\\' :: p.1, p.2)) := by
  simp [parseStrBodyF]

theorem psb_escB (f : Nat) (X : List Char) :
    parseStrBodyF (f + 1) ('\\' :: 'b' :: X)
      = (parseStrBodyF f X).map (fun p => ('\x08' :: p.1, p.2)) := by
  simp [parseStrBodyF]

theorem psb_escT (f : Nat) (X : List Char) :
    parseStrBodyF (f + 1) ('\\' :: 't' :: X)
      = (parseStrBodyF f X).map (fun p => ('\t' :: p.1, p.2)) := by
  simp [parseStrBodyF]

theorem psb_escN (f : Nat) (X : List Char) :
    parseStrBodyF (f + 1) ('\\' :: 'n' :: X)
      = (parseStrBodyF f X).map (fun p => ('\n' :: p.1, p.2)) := by
  simp [parseStrBodyF]

theorem psb_escF (f : Nat) (X : List Char) :
    parseStrBodyF (f + 1) ('\\' :: 'f' :: X)
      = (parseStrBodyF f X).map (fun p => ('\x0c' :: p.1, p.2)) := by
  simp [parseStrBodyF]

theorem psb_escR (f : Nat) (X : List Char) :
    parseStrBodyF (f + 1) ('\\' :: 'r' :: X)
      = (parseStrBodyF f X).map (fun p => ('\r' :: p.1, p.2)) := by
  simp [parseStrBodyF]

theorem psb_u (f : Nat) (m : Nat) (X : List Char) (h : m < 0x10000)
    (hs1 : ¬ (0xD800 ≤ m ∧ m ≤ 0xDBFF)) (hs2 : ¬ (0xDC00 ≤ m ∧ m ≤ 0xDFFF)) :
    parseStrBodyF (f + 1) ('\\' :: 'u' :: (hex4 m ++ X))
      = (parseStrBodyF f X).map (fun p => (Char.ofNat m :: p.1, p.2)) := by
  simp only [hex4, List.cons_append, List.nil_append, parseStrBodyF]
  simp [hex4Val_hex4 h, hs1, hs2]

theorem psb_uPair (f : Nat) (a b : Nat) (X : List Char)
    (ha : 0xD800 ≤ a ∧ a ≤ 0xDBFF) (hb : 0xDC00 ≤ b ∧ b ≤ 0xDFFF) :
    parseStrBodyF (f + 1)
      (('\\' :: 'u' :: hex4 a) ++ (('\\' :: 'u' :: hex4 b) ++ X))
      = (parseStrBodyF f X).map (fun p =>
          (Char.ofNat (0x10000 + (a - 0xD800) * 0x400 + (b - 0xDC00)) :: p.1,
           p.2)) := by
  have ha16 : a < 0x10000 := by omega
  have hb16 : b < 0x10000 := by omega
  simp only [hex4, List.cons_append, List.nil_append, List.append_assoc,
    parseStrBodyF]
  simp [hex4Val_hex4 ha16, hex4Val_hex4 hb16, ha, hb]

theorem parseStrBodyF_esc :
    ∀ (l rest : List Char) (fuel : Nat), l.length < fuel →
      parseStrBodyF fuel
        ((l.foldr (fun c acc => escapeChar c ++ acc) []) ++ '"' :: rest)
        = Option.some (l, rest) := by
  intro l
  induction l with
  | nil =>
    intro rest fuel hf
    obtain ⟨f, rfl⟩ : ∃ f, fuel = f + 1 := ⟨fuel - 1, by omega⟩
    exact psb_quote f rest
  | cons c l' ih =>
    intro rest fuel hf
    obtain ⟨f, rfl⟩ : ∃ f, fuel = f + 1 := ⟨fuel - 1, by omega⟩
    have hf' : l'.length < f := by
      simp only [List.length_cons] at hf
      omega
    have ihx := ih rest f hf'
    simp only [List.foldr_cons, List.append_assoc]
    by_cases h1 : c = '\\'
    · subst h1
      rw [show escapeChar '\\' = ['\\', '\\'] from rfl]
      simp only [List.cons_append, List.nil_append]
      rw [psb_escBack, ihx]
      rfl
    · by_cases h2 : c = '"'
      · subst h2
        rw [show escapeChar '"' = ['\\', '"'] from rfl]
        simp only [List.cons_append, List.nil_append]
        rw [psb_escQuote, ihx]
        rfl
      · by_cases h3 : c = '\x08'
        · subst h3
          rw [show escapeChar '\x08' = ['\\', 'b'] from rfl]
          simp only [List.cons_append, List.nil_append]
          rw [psb_escB, ihx]
          rfl
        · by_cases h4 : c = '\t'
          · subst h4
            rw [show escapeChar '\t' = ['\\', 't'] from rfl]
            simp only [List.cons_append, List.nil_append]
            rw [psb_escT, ihx]
            rfl
          · by_cases h5 : c = '\n'
            · subst h5
              rw [show escapeChar '\n' = ['\\', 'n'] from rfl]
              simp only [List.cons_append, List.nil_append]
              rw [psb_escN, ihx]
              rfl
            · by_cases h6 : c = '\x0c'
              · subst h6
                rw [show escapeChar '\x0c' = ['\\', 'f'] from rfl]
                simp only [List.cons_append, List.nil_append]
                rw [psb_escF, ihx]
                rfl
              · by_cases h7 : c = '\r'
                · subst h7
                  rw [show escapeChar '\r' = ['\\', 'r'] from rfl]
                  simp only [List.cons_append, List.nil_append]
                  rw [psb_escR, ihx]
                  rfl
                · by_cases h8 : 0x20 ≤ c.toNat ∧ c.toNat ≤ 0x7E
                  · rw [show escapeChar c = [c] by
                      unfold escapeChar
                      rw [if_neg h1, if_neg h2, if_neg h3, if_neg h4,
                        if_neg h5, if_neg h6, if_neg h7, if_pos h8]]
                    simp only [List.cons_append, List.nil_append]
                    rw [psb_raw f c _ h2 h1 (by omega), ihx]
                    rfl
                  · have hval := char_toNat_valid c
                    by_cases h9 : c.toNat < 0x10000
                    · rw [show escapeChar c = '\\' :: 'u' :: hex4 c.toNat by
                        unfold escapeChar
                        rw [if_neg h1, if_neg h2, if_neg h3, if_neg h4,
                          if_neg h5, if_neg h6, if_neg h7, if_neg h8,
                          if_pos h9]]
                      simp only [List.cons_append, List.nil_append]
                      rw [psb_u f c.toNat _ h9 (by omega) (by omega), ihx]
                      simp
                    · rw [show escapeChar c
                          = ('\\' :: 'u'
                              :: hex4 (0xD800 + (c.toNat - 0x10000) / 0x400))
                            ++ ('\\' :: 'u'
                              :: hex4 (0xDC00 + (c.toNat - 0x10000) % 0x400)) by
                        unfold escapeChar
                        rw [if_neg h1, if_neg h2, if_neg h3, if_neg h4,
                          if_neg h5, if_neg h6, if_neg h7, if_neg h8,
                          if_neg h9]]
                      rw [List.append_assoc, psb_uPair f _ _ _
                        (by omega) (by omega), ihx]
                      simp
                      rw [show (0x10000 : Nat)
                        + (c.toNat - 0x10000) / 0x400 * 0x400
                        + (c.toNat - 0x10000) % 0x400 = c.toNat by omega]
                      exact Char.ofNat_toNat c

theorem string_mk_toList (s : String) : String.mk s.toList = s := by
  cases s
  rfl

theorem escapeChar_ne_nil (c : Char) : escapeChar c ≠ [] := by
  unfold escapeChar
  repeat' split
  all_goals simp [hex4]

theorem esc_length_ge (l : List Char) :
    l.length ≤ (l.foldr (fun c acc => escapeChar c ++ acc) []).length := by
  induction l with
  | nil => simp
  | cons c l' ih =>
    simp only [List.foldr_cons, List.length_cons, List.length_append]
    have h1 : 1 ≤ (escapeChar c).length := by
      cases hl : escapeChar c with
      | nil => exact absurd hl (escapeChar_ne_nil c)
      | cons a t => simp
    omega

theorem parseJStr_print (s : String) (rest : List Char) :
    parseJStr (printStr s ++ rest) = Option.some (s, rest) := by
  unfold printStr parseJStr escapeStr
  simp only [List.cons_append, List.append_assoc, List.singleton_append,
    List.nil_append]
  rw [parseStrBodyF_esc s.toList rest _ (by
    have h := esc_length_ge s.toList
    simp only [List.length_append, List.length_cons]
    omega)]
  simp [string_mk_toList]

/-- The items of a separated join after the first. -/
def tailJoin (sep : List Char) : List (List Char) → List Char
  | [] => []
  | y :: rest => sep ++ y ++ tailJoin sep rest

theorem joinSep_eq_tailJoin (sep x : List Char) (xs : List (List Char)) :
    joinSep sep (x :: xs) = x ++ tailJoin sep xs := by
  induction xs generalizing x with
  | nil => simp [joinSep, tailJoin]
  | cons y rest ih =>
    simp only [joinSep, tailJoin, ih y, List.append_assoc]

theorem tailJoin_length_ge (xs : List (List Char)) :
    xs.length ≤ (tailJoin (", ".toList) xs).length := by
  induction xs with
  | nil => simp [tailJoin]
  | cons y rest ih =>
    simp only [tailJoin, List.length_cons, List.length_append]
    have h2 : (", ".toList).length = 2 := rfl
    omega

theorem parseJStrTail_comma (fuel : Nat) (rest : List Char) :
    parseJStrTail (fuel + 1) (',' :: ' ' :: rest) =
      match parseJStr rest with
      | Option.some (s, rest2) =>
        (parseJStrTail fuel rest2).map (fun p => (s :: p.1, p.2))
      | Option.none => Option.none := rfl

theorem parseJStrTail_print :
    ∀ (ss : List String) (rest : List Char) (fuel : Nat), ss.length < fuel →
      parseJStrTail fuel
        (tailJoin (", ".toList) (ss.map printStr) ++ ']' :: rest)
        = Option.some (ss, rest) := by
  intro ss
  induction ss with
  | nil =>
    intro rest fuel hf
    obtain ⟨f, rfl⟩ : ∃ f, fuel = f + 1 := ⟨fuel - 1, by omega⟩
    simp [tailJoin, parseJStrTail]
  | cons s ss' ih =>
    intro rest fuel hf
    obtain ⟨f, rfl⟩ : ∃ f, fuel = f + 1 := ⟨fuel - 1, by omega⟩
    have hf' : ss'.length < f := by
      simp only [List.length_cons] at hf
      omega
    simp only [List.map_cons, tailJoin]
    rw [show (", ".toList : List Char) = [',', ' '] from rfl]
    simp only [List.cons_append, List.nil_append, List.append_assoc]
    rw [parseJStrTail_comma, parseJStr_print]
    rw [show ([',', ' '] : List Char) = ", ".toList from rfl]
    simp only [ih rest f hf', Option.map_some']

theorem parseStrList_cons (c : Char) (cs : List Char) (h : ¬ c = ']') :
    parseStrList ('[' :: c :: cs) =
      match parseJStr (c :: cs) with
      | Option.some (s, rest2) =>
        (parseJStrTail rest2.length rest2).map (fun p => (s :: p.1, p.2))
      | Option.none => Option.none := by
  unfold parseStrList
  split
  · rename_i r heq
    injection heq with h1 h2
    injection h2 with h3 h4
    exact absurd h3 h
  · rename_i r heq
    injection heq with h1 h2
    rw [h2]
  · rename_i hne
    exact absurd rfl (hne (c :: cs))

theorem parseStrList_print (l : List String) (rest : List Char) :
    parseStrList (printStrList l ++ rest) = Option.some (l, rest) := by
  cases l with
  | nil => rfl
  | cons s ss =>
    unfold printStrList
    simp only [List.map_cons]
    rw [joinSep_eq_tailJoin]
    rw [show printStr s = '"' :: (escapeStr s ++ ['"']) from rfl]
    simp only [List.cons_append, List.append_assoc, List.singleton_append,
      List.nil_append]
    rw [parseStrList_cons '"' _ (by decide)]
    rw [show ('"' :: (escapeStr s
        ++ ('"' :: (tailJoin (", ".toList) (ss.map printStr) ++ ']' :: rest))))
      = printStr s
        ++ (tailJoin (", ".toList) (ss.map printStr) ++ ']' :: rest) by
      simp [printStr]]
    rw [parseJStr_print]
    have hlen : ss.length
        < (tailJoin (", ".toList) (ss.map printStr) ++ ']' :: rest).length := by
      have h1 := tailJoin_length_ge (ss.map printStr)
      simp only [List.length_map] at h1
      simp only [List.length_append, List.length_cons]
      omega
    simp only [parseJStrTail_print ss rest _ hlen, Option.map_some']

theorem digitChar10_isDigit {d : Nat} (h : d < 10) :
    (digitChar10 d).isDigit = true := by
  interval_cases d <;> decide

theorem digitChar10_toNat {d : Nat} (h : d < 10) :
    (digitChar10 d).toNat = 48 + d := by
  interval_cases d <;> decide

theorem natDigitsRevFuel_digits (fuel : Nat) :
    ∀ n, (natDigitsRevFuel fuel n).all Char.isDigit = true := by
  induction fuel with
  | zero => intro n; rfl
  | succ f ih =>
    intro n
    unfold natDigitsRevFuel
    split
    · rfl
    · rw [List.all_cons, ih (n / 10),
        digitChar10_isDigit (Nat.mod_lt n (by omega))]
      rfl

theorem natToChars_ne_nil (n : Nat) : natToChars n ≠ [] := by
  unfold natToChars
  split
  · simp
  · rename_i h
    obtain ⟨f, hf⟩ : ∃ f, n = f + 1 := ⟨n - 1, by omega⟩
    rw [hf]
    unfold natDigitsRevFuel
    rw [if_neg (by omega)]
    simp

theorem natToChars_digits (n : Nat) :
    (natToChars n).all Char.isDigit = true := by
  unfold natToChars
  split
  · rfl
  · rw [List.all_reverse]
    exact natDigitsRevFuel_digits n n

theorem natToChars_cons (n : Nat) :
    ∃ d ds, natToChars n = d :: ds ∧ d.isDigit = true := by
  cases hc : natToChars n with
  | nil => exact absurd hc (natToChars_ne_nil n)
  | cons d ds =>
    refine ⟨d, ds, rfl, ?_⟩
    have h := natToChars_digits n
    rw [hc, List.all_cons, Bool.and_eq_true] at h
    exact h.1

theorem digitsToNat_append (a b : List Char) :
    digitsToNat (a ++ b)
      = b.foldl (fun x c => x * 10 + (c.toNat - 48)) (digitsToNat a) := by
  unfold digitsToNat
  rw [List.foldl_append]

theorem digitsToNat_rev_aux (fuel : Nat) :
    ∀ n, 0 < n → n ≤ fuel →
      digitsToNat (natDigitsRevFuel fuel n).reverse = n := by
  induction fuel with
  | zero => intro n h1 h2; omega
  | succ f ih =>
    intro n h1 h2
    unfold natDigitsRevFuel
    rw [if_neg (by omega), List.reverse_cons, digitsToNat_append]
    by_cases h10 : n / 10 = 0
    · rw [h10, show natDigitsRevFuel f 0 = [] by cases f <;> rfl]
      show digitsToNat [] * 10 + ((digitChar10 (n % 10)).toNat - 48) = n
      rw [digitChar10_toNat (Nat.mod_lt n (by omega))]
      show 0 * 10 + (48 + n % 10 - 48) = n
      omega
    · rw [ih (n / 10) (by omega) (by omega)]
      show n / 10 * 10 + ((digitChar10 (n % 10)).toNat - 48) = n
      rw [digitChar10_toNat (Nat.mod_lt n (by omega))]
      omega

theorem digitsToNat_natToChars (n : Nat) :
    digitsToNat (natToChars n) = n := by
  unfold natToChars
  split
  · rename_i h
    rw [h]
    rfl
  · rename_i h
    exact digitsToNat_rev_aux n n (by omega) le_rfl

theorem takeWhile_append_of_headFail (p : Char → Bool) :
    ∀ (a b : List Char), a.all p = true →
      (∀ c cs, b = c :: cs → p c = false) →
      (a ++ b).takeWhile p = a ∧ (a ++ b).dropWhile p = b := by
  intro a
  induction a with
  | nil =>
    intro b _ hb
    cases b with
    | nil => exact ⟨rfl, rfl⟩
    | cons c cs =>
      constructor
      · simp [List.takeWhile_cons, hb c cs rfl]
      · simp [List.dropWhile_cons, hb c cs rfl]
  | cons x a' ih =>
    intro b hall hb
    rw [List.all_cons, Bool.and_eq_true] at hall
    have h2 := ih b hall.2 hb
    constructor
    · simp [List.takeWhile_cons, hall.1, h2.1]
    · simp [List.dropWhile_cons, hall.1, h2.2]

theorem isNumCont_false_elim {c : Char} (h : isNumCont c = false) :
    c.isDigit = false ∧ ¬c = '.' ∧ ¬c = 'e' ∧ ¬c = 'E' ∧ ¬c = '+'
      ∧ ¬c = '-' := by
  unfold isNumCont at h
  rw [decide_eq_false_iff_not] at h
  push_neg at h
  exact ⟨by simpa using h.1, h.2.1, h.2.2.1, h.2.2.2.1, h.2.2.2.2.1,
    h.2.2.2.2.2⟩

theorem scanSign_cons_ne {c : Char} (X : List Char) (h : ¬c = '-') :
    scanSign (c :: X) = ([], c :: X) := by
  unfold scanSign
  split
  · rename_i r heq
    injection heq with h1 h2
    exact absurd h1 h
  · rfl

theorem scanFrac_stop (X : List Char)
    (h : ∀ c cs, X = c :: cs → isNumCont c = false) :
    scanFrac X = ([], X) := by
  cases X with
  | nil => rfl
  | cons c cs =>
    have hc := (isNumCont_false_elim (h c cs rfl)).2.1
    unfold scanFrac
    split
    · rename_i r heq
      injection heq with h1 h2
      exact absurd h1 hc
    · rfl

theorem scanExp_stop (X : List Char)
    (h : ∀ c cs, X = c :: cs → isNumCont c = false) :
    scanExp X = ([], X) := by
  cases X with
  | nil => rfl
  | cons c cs =>
    have hc := isNumCont_false_elim (h c cs rfl)
    simp only [scanExp]
    rw [if_neg (by
      rintro (rfl | rfl)
      · exact hc.2.2.1 rfl
      · exact hc.2.2.2.1 rfl)]

theorem scanExpSign_cons_ne {c : Char} (X : List Char) (h1 : ¬c = '+')
    (h2 : ¬c = '-') : scanExpSign (c :: X) = ([], c :: X) := by
  unfold scanExpSign
  split
  · rename_i r heq
    injection heq with ha hb
    exact absurd ha h1
  · rename_i r heq
    injection heq with ha hb
    exact absurd ha h2
  · rfl

theorem scanSign_token {sgn : List Char} (hsgn : sgn = [] ∨ sgn = ['-'])
    (ds X : List Char) (hds : ds ≠ []) (hdig : ds.all Char.isDigit = true) :
    scanSign ((sgn ++ ds) ++ X) = (sgn, ds ++ X) := by
  rcases hsgn with rfl | rfl
  · simp only [List.nil_append]
    cases ds with
    | nil => exact absurd rfl hds
    | cons d ds' =>
      rw [List.cons_append]
      refine scanSign_cons_ne _ ?_
      intro hEq
      rw [List.all_cons, Bool.and_eq_true] at hdig
      rw [hEq] at hdig
      exact absurd hdig.1 (by decide)
  · rfl

theorem scanExpSign_shape {es : List Char}
    (hes : es = [] ∨ es = ['+'] ∨ es = ['-']) (eds X : List Char)
    (hne : eds ≠ []) (hdig : eds.all Char.isDigit = true) :
    scanExpSign ((es ++ eds) ++ X) = (es, eds ++ X) := by
  rcases hes with rfl | rfl | rfl
  · simp only [List.nil_append]
    cases eds with
    | nil => exact absurd rfl hne
    | cons d eds' =>
      rw [List.cons_append]
      rw [List.all_cons, Bool.and_eq_true] at hdig
      refine scanExpSign_cons_ne _ ?_ ?_
      · intro hEq
        rw [hEq] at hdig
        exact absurd hdig.1 (by decide)
      · intro hEq
        rw [hEq] at hdig
        exact absurd hdig.1 (by decide)
  · rfl
  · rfl

theorem scanExp_shape {ep : List Char} (h : expShape ep) (rest : List Char)
    (hrest : ∀ c cs, rest = c :: cs → isNumCont c = false) :
    scanExp (ep ++ rest) = (ep, rest) := by
  obtain ⟨e, es, eds, he, hes, hne, hdig, rfl⟩ := h
  rw [List.cons_append]
  simp only [scanExp]
  rw [if_pos he, scanExpSign_shape hes eds rest hne hdig]
  have htw := takeWhile_append_of_headFail Char.isDigit eds rest hdig
    (fun c cs hEq => (isNumCont_false_elim (hrest c cs hEq)).1)
  simp only [htw.1, htw.2, if_neg hne]

theorem scanFrac_cons_ne {c : Char} (X : List Char) (h : ¬c = '.') :
    scanFrac (c :: X) = ([], c :: X) := by
  unfold scanFrac
  split
  · rename_i r heq
    injection heq with h1 h2
    exact absurd h1 h
  · rfl

theorem scanFrac_frac {fp : List Char} (hne : fp ≠ [])
    (hdig : fp.all Char.isDigit = true) (X : List Char)
    (hX : ∀ c cs, X = c :: cs → c.isDigit = false) :
    scanFrac (('.' :: fp) ++ X) = ('.' :: fp, X) := by
  rw [List.cons_append]
  have htw := takeWhile_append_of_headFail Char.isDigit fp X hdig hX
  show (if (fp ++ X).takeWhile Char.isDigit = []
      then ([], '.' :: (fp ++ X))
      else ('.' :: (fp ++ X).takeWhile Char.isDigit,
        (fp ++ X).dropWhile Char.isDigit)) = ('.' :: fp, X)
  rw [htw.1, htw.2, if_neg hne]

theorem scanFracExp (tail rest : List Char)
    (htail : tail = [] ∨ tailShape tail)
    (hrest : ∀ c cs, rest = c :: cs → isNumCont c = false) :
    (scanFrac (tail ++ rest)).1
        ++ (scanExp (scanFrac (tail ++ rest)).2).1 = tail ∧
      (scanExp (scanFrac (tail ++ rest)).2).2 = rest := by
  have hrd : ∀ c cs, rest = c :: cs → c.isDigit = false :=
    fun c cs hEq => (isNumCont_false_elim (hrest c cs hEq)).1
  rcases htail with rfl | hts
  · rw [List.nil_append, scanFrac_stop rest hrest]
    constructor
    · show [] ++ (scanExp rest).1 = []
      rw [scanExp_stop rest hrest]
      rfl
    · show (scanExp rest).2 = rest
      rw [scanExp_stop rest hrest]
  · rcases hts with ⟨fp, hne, hdigf, rfl⟩ |
      ⟨ep, hep, rfl⟩ | ⟨fp, ep, hne, hdigf, hexp, rfl⟩
    · rw [scanFrac_frac hne hdigf rest hrd]
      constructor
      · show ('.' :: fp) ++ (scanExp rest).1 = '.' :: fp
        rw [scanExp_stop rest hrest]
        simp
      · show (scanExp rest).2 = rest
        rw [scanExp_stop rest hrest]
    · have hfr : scanFrac (tail ++ rest) = ([], tail ++ rest) := by
        obtain ⟨e, es, eds, he, hes, hnee, hdige, hEq⟩ := hep
        rw [hEq, List.cons_append]
        exact scanFrac_cons_ne _ (by rcases he with rfl | rfl <;> decide)
      rw [hfr]
      constructor
      · show [] ++ (scanExp (tail ++ rest)).1 = tail
        rw [scanExp_shape hep rest hrest]
        rfl
      · show (scanExp (tail ++ rest)).2 = rest
        rw [scanExp_shape hep rest hrest]
    · have hEheadX : ∀ c cs, ep ++ rest = c :: cs → c.isDigit = false := by
        obtain ⟨e, es, eds, he, hes, hnee, hdige, hepEq⟩ := hexp
        intro c cs hEq
        rw [hepEq, List.cons_append] at hEq
        injection hEq with h1 h2
        rw [← h1]
        rcases he with rfl | rfl <;> decide
      rw [show ('.' :: (fp ++ ep)) ++ rest = ('.' :: fp) ++ (ep ++ rest)
        by simp]
      rw [scanFrac_frac hne hdigf (ep ++ rest) hEheadX]
      constructor
      · show ('.' :: fp) ++ (scanExp (ep ++ rest)).1 = '.' :: (fp ++ ep)
        rw [scanExp_shape hexp rest hrest]
        simp
      · show (scanExp (ep ++ rest)).2 = rest
        rw [scanExp_shape hexp rest hrest]

theorem numScan_token {sgn ds tail : List Char} (rest : List Char)
    (hsgn : sgn = [] ∨ sgn = ['-']) (hds : ds ≠ [])
    (hdig : ds.all Char.isDigit = true)
    (htail : tail = [] ∨ tailShape tail)
    (hrest : ∀ c cs, rest = c :: cs → isNumCont c = false) :
    numScan ((sgn ++ (ds ++ tail)) ++ rest)
      = Option.some (sgn ++ (ds ++ tail), rest) := by
  rw [show (sgn ++ (ds ++ tail)) ++ rest = (sgn ++ ds) ++ (tail ++ rest)
    by simp]
  unfold numScan
  rw [scanSign_token hsgn ds (tail ++ rest) hds hdig]
  have hhead : ∀ c cs, tail ++ rest = c :: cs → c.isDigit = false := by
    rcases htail with rfl | hts
    · intro c cs hEq
      exact (isNumCont_false_elim (hrest c cs (by simpa using hEq))).1
    · rcases hts with ⟨fp, hne, hdigf, rfl⟩ |
        ⟨ep, ⟨e, es, eds, he, hes, hnee, hdige, rfl⟩, rfl⟩ |
        ⟨fp, ep, hne, hdigf, hexp, rfl⟩
      · intro c cs hEq
        rw [List.cons_append] at hEq
        injection hEq with h1 h2
        rw [← h1]
        decide
      · intro c cs hEq
        rw [List.cons_append] at hEq
        injection hEq with h1 h2
        rw [← h1]
        rcases he with rfl | rfl <;> decide
      · intro c cs hEq
        rw [List.cons_append] at hEq
        injection hEq with h1 h2
        rw [← h1]
        decide
  have htw := takeWhile_append_of_headFail Char.isDigit ds (tail ++ rest)
    hdig hhead
  have hfe := scanFracExp tail rest htail hrest
  simp only [htw.1, htw.2, if_neg hds]
  rw [List.append_assoc (sgn ++ ds), hfe.1, hfe.2, List.append_assoc]

theorem digits_no_marker {ds : List Char} (h : ds.all Char.isDigit = true) :
    ds.any (fun c => c = '.' ∨ c = 'e' ∨ c = 'E') = false := by
  rw [List.any_eq_false]
  intro c hc
  have hd := List.all_eq_true.mp h c hc
  simp only [decide_eq_true_eq]
  rintro (rfl | rfl | rfl) <;> exact absurd hd (by decide)

theorem floatToken_has_marker {cs : List Char} (h : isFloatToken cs = true) :
    cs.any (fun c => c = '.' ∨ c = 'e' ∨ c = 'E') = true := by
  obtain ⟨sgn, ds, tail, rfl, hsgn, hne, hdig, hts⟩ := floatToken_shape h
  rw [List.any_eq_true]
  rcases hts with ⟨fp, _, _, rfl⟩ | ⟨ep, hep, hEq⟩ |
    ⟨fp, ep, _, _, hexp, rfl⟩
  · exact ⟨'.', by simp, by decide⟩
  · obtain ⟨e, es, eds, he, _, _, _, hEq2⟩ := hep
    refine ⟨e, ?_, by rcases he with rfl | rfl <;> decide⟩
    rw [hEq, hEq2]
    simp
  · exact ⟨'.', by simp, by decide⟩

theorem parseVal_default {c : Char} (cs : List Char) (h1 : ¬c = '"')
    (h2 : ¬c = 't') (h3 : ¬c = 'f') :
    parseVal (c :: cs) =
      match numScan (c :: cs) with
      | Option.some (tok, rest) =>
        if tok.any (fun c => c = '.' ∨ c = 'e' ∨ c = 'E') then
          Option.some (PyVal.float (String.mk tok), rest)
        else
          match tok with
          | '-' :: ds => Option.some (PyVal.int (-(digitsToNat ds : Int)), rest)
          | ds => Option.some (PyVal.int (digitsToNat ds : Int), rest)
      | Option.none => Option.none := by
  unfold parseVal
  split
  · rename_i x heq
    injection heq with ha hb
    exact absurd ha h1
  · rename_i x heq
    injection heq with ha hb
    exact absurd ha h2
  · rename_i x heq
    injection heq with ha hb
    exact absurd ha h3
  · rfl

theorem parseVal_default2 (X : List Char)
    (h : ∀ c cs, X = c :: cs → ¬c = '"' ∧ ¬c = 't' ∧ ¬c = 'f') :
    parseVal X =
      match numScan X with
      | Option.some (tok, rest) =>
        if tok.any (fun c => c = '.' ∨ c = 'e' ∨ c = 'E') then
          Option.some (PyVal.float (String.mk tok), rest)
        else
          match tok with
          | '-' :: ds => Option.some (PyVal.int (-(digitsToNat ds : Int)), rest)
          | ds => Option.some (PyVal.int (digitsToNat ds : Int), rest)
      | Option.none => Option.none := by
  cases X with
  | nil => rfl
  | cons c cs =>
    exact parseVal_default cs (h c cs rfl).1 (h c cs rfl).2.1 (h c cs rfl).2.2

theorem natToChars_head_not_special (n : Nat) (X : List Char) :
    ∀ c cs, natToChars n ++ X = c :: cs → ¬c = '"' ∧ ¬c = 't' ∧ ¬c = 'f' := by
  obtain ⟨d, ds, hnd, hdig⟩ := natToChars_cons n
  intro c cs hEq
  rw [hnd, List.cons_append] at hEq
  injection hEq with h1 h2
  subst h1
  refine ⟨?_, ?_, ?_⟩ <;> intro hEq2 <;> rw [hEq2] at hdig <;>
    exact absurd hdig (by decide)

theorem parseVal_int (n : Int) (rest : List Char)
    (hrest : ∀ c cs, rest = c :: cs → isNumCont c = false) :
    parseVal (intToChars n ++ rest) = Option.some (PyVal.int n, rest) := by
  by_cases hn : n < 0
  · rw [show intToChars n = '-' :: natToChars (-n).toNat by
      unfold intToChars; rw [if_pos hn]]
    rw [List.cons_append]
    rw [parseVal_default _ (by decide) (by decide) (by decide)]
    rw [show ('-' :: (natToChars (-n).toNat ++ rest))
      = (['-'] ++ (natToChars (-n).toNat ++ [])) ++ rest by simp]
    rw [numScan_token rest (Or.inr rfl) (natToChars_ne_nil _)
      (natToChars_digits _) (Or.inl rfl) hrest]
    simp only [List.append_nil, List.singleton_append]
    rw [show (('-' :: natToChars (-n).toNat).any
        (fun c => c = '.' ∨ c = 'e' ∨ c = 'E')) = false by
      rw [List.any_cons, digits_no_marker (natToChars_digits _)]
      decide]
    simp only [Bool.false_eq_true, if_false]
    rw [digitsToNat_natToChars]
    rw [show (((-n).toNat : Int)) = -n from Int.toNat_of_nonneg (by omega)]
    simp
  · rw [show intToChars n = natToChars n.toNat by
      unfold intToChars; rw [if_neg hn]]
    rw [parseVal_default2 _ (natToChars_head_not_special n.toNat rest)]
    rw [show natToChars n.toNat ++ rest
      = ([] ++ (natToChars n.toNat ++ [])) ++ rest by simp]
    rw [numScan_token rest (Or.inl rfl) (natToChars_ne_nil _)
      (natToChars_digits _) (Or.inl rfl) hrest]
    simp only [List.append_nil, List.nil_append]
    rw [show ((natToChars n.toNat).any
        (fun c => c = '.' ∨ c = 'e' ∨ c = 'E')) = false
      from digits_no_marker (natToChars_digits _)]
    simp only [Bool.false_eq_true, if_false]
    obtain ⟨d, ds, hnd, hdig⟩ := natToChars_cons n.toNat
    rw [hnd]
    split
    · rename_i ds2 heq
      injection heq with h1 h2
      rw [h1] at hdig
      exact absurd hdig (by decide)
    · rw [← hnd, digitsToNat_natToChars]
      rw [show ((n.toNat : Int)) = n from Int.toNat_of_nonneg (by omega)]

theorem parseVal_print {v : PyVal} (hv : attrValOk v = true)
    (rest : List Char)
    (hrest : ∀ c cs, rest = c :: cs → isNumCont c = false) :
    parseVal (printVal v ++ rest) = Option.some (v, rest) := by
  cases v with
  | str s =>
    rw [show printVal (PyVal.str s) = printStr s from rfl,
      show printStr s = '"' :: (escapeStr s ++ ['"']) from rfl,
      List.cons_append]
    show (parseJStr ('"' :: ((escapeStr s ++ ['"']) ++ rest))).map
      (fun p => (PyVal.str p.1, p.2)) = _
    rw [show ('"' :: ((escapeStr s ++ ['"']) ++ rest)) = printStr s ++ rest
      by simp [printStr]]
    rw [parseJStr_print]
    rfl
  | int n => exact parseVal_int n rest hrest
  | float fs =>
    have hok : isFloatToken fs.toList = true := hv
    obtain ⟨sgn, ds, tail, hEq, hsgn, hne, hdig, hts⟩ := floatToken_shape hok
    rw [show printVal (PyVal.float fs) = fs.toList from rfl, hEq]
    have hhead : ∀ c cs, (sgn ++ (ds ++ tail)) ++ rest = c :: cs →
        ¬c = '"' ∧ ¬c = 't' ∧ ¬c = 'f' := by
      rcases hsgn with rfl | rfl
      · simp only [List.nil_append]
        cases ds with
        | nil => exact absurd rfl hne
        | cons d ds' =>
          intro c cs hEq2
          simp only [List.cons_append] at hEq2
          injection hEq2 with h1 h2
          rw [List.all_cons, Bool.and_eq_true] at hdig
          subst h1
          refine ⟨?_, ?_, ?_⟩ <;> intro hEq3 <;>
            [rw [hEq3] at hdig; rw [hEq3] at hdig; rw [hEq3] at hdig] <;>
            exact absurd hdig.1 (by decide)
      · intro c cs hEq2
        simp only [List.singleton_append, List.cons_append] at hEq2
        injection hEq2 with h1 h2
        subst h1
        exact ⟨by decide, by decide, by decide⟩
    rw [parseVal_default2 _ hhead]
    rw [numScan_token rest hsgn hne hdig (Or.inr hts) hrest]
    show (if ((sgn ++ (ds ++ tail)).any
          (fun c => c = '.' ∨ c = 'e' ∨ c = 'E')) = true
        then Option.some (PyVal.float (String.mk (sgn ++ (ds ++ tail))), rest)
        else
          match sgn ++ (ds ++ tail) with
          | '-' :: ds =>
            Option.some (PyVal.int (-(digitsToNat ds : Int)), rest)
          | ds => Option.some (PyVal.int (digitsToNat ds : Int), rest))
      = Option.some (PyVal.float fs, rest)
    rw [show ((sgn ++ (ds ++ tail)).any
        (fun c => c = '.' ∨ c = 'e' ∨ c = 'E')) = true by
      rw [← hEq]
      exact floatToken_has_marker hok]
    rw [if_pos rfl, ← hEq, string_mk_toList]
  | bool b => cases b <;> rfl
  | list l => simp [attrValOk] at hv
  | none => simp [attrValOk] at hv

theorem pyDictSet_notmem (d : List (String × PyVal)) (k : String) (v : PyVal)
    (h : k ∉ d.map Prod.fst) : pyDictSet d k v = d ++ [(k, v)] := by
  unfold pyDictSet
  rw [if_neg h]

theorem pyDictFromPairs_aux :
    ∀ (ps acc : List (String × PyVal)),
      (acc.map Prod.fst ++ ps.map Prod.fst).Nodup →
      ps.foldl (fun d kv => pyDictSet d kv.1 kv.2) acc = acc ++ ps := by
  intro ps
  induction ps with
  | nil =>
    intro acc h
    simp
  | cons kv ps' ih =>
    intro acc h
    have hmem : kv.1 ∉ acc.map Prod.fst := by
      rw [List.map_cons, List.nodup_append] at h
      intro hc
      exact h.2.2 hc (List.mem_cons_self _ _)
    rw [List.foldl_cons, pyDictSet_notmem acc kv.1 kv.2 hmem]
    rw [ih (acc ++ [(kv.1, kv.2)]) (by
      simp only [List.map_append, List.map_cons] at h ⊢
      simpa [List.append_assoc] using h)]
    simp

theorem pyDictFromPairs_id (ps : List (String × PyVal))
    (h : (ps.map Prod.fst).Nodup) : pyDictFromPairs ps = ps := by
  have h2 := pyDictFromPairs_aux ps [] (by simpa using h)
  simpa [pyDictFromPairs] using h2

theorem parseAttrPair_print (k : String) (v : PyVal) (hv : attrValOk v = true)
    (rest : List Char)
    (hrest : ∀ c cs, rest = c :: cs → isNumCont c = false) :
    parseAttrPair ((printStr k ++ ": ".toList ++ printVal v) ++ rest)
      = Option.some ((k, v), rest) := by
  unfold parseAttrPair
  rw [show (printStr k ++ ": ".toList ++ printVal v) ++ rest
      = printStr k ++ (':' :: ' ' :: (printVal v ++ rest)) by
    rw [show (": ".toList : List Char) = [':', ' '] from rfl]
    simp]
  rw [parseJStr_print]
  show (parseVal (printVal v ++ rest)).map (fun p => ((k, p.1), p.2)) = _
  rw [parseVal_print hv rest hrest]
  rfl

theorem tailJoin_attr_cons (a : List Char) (l : List (List Char)) :
    tailJoin (", ".toList) (a :: l)
      = ',' :: ' ' :: (a ++ tailJoin (", ".toList) l) := rfl

theorem tailJoin_head_attr (items : List (List Char)) (rest : List Char) :
    ∀ c cs, tailJoin (", ".toList) items ++ '\x7d' :: rest = c :: cs →
      isNumCont c = false := by
  cases items with
  | nil =>
    intro c cs hEq
    rw [show tailJoin (", ".toList) [] = [] from rfl, List.nil_append] at hEq
    injection hEq with h1 h2
    rw [← h1]
    decide
  | cons a l =>
    intro c cs hEq
    rw [tailJoin_attr_cons, List.cons_append] at hEq
    injection hEq with h1 h2
    rw [← h1]
    decide

theorem parseAttrsTail_comma (fuel : Nat) (rest : List Char) :
    parseAttrsTail (fuel + 1) (',' :: ' ' :: rest) =
      match parseAttrPair rest with
      | Option.some (kv, rest2) =>
        (parseAttrsTail fuel rest2).map (fun p => (kv :: p.1, p.2))
      | Option.none => Option.none := rfl

theorem parseAttrsTail_print :
    ∀ (ps : List (String × PyVal)) (rest : List Char) (fuel : Nat),
      (∀ kv ∈ ps, attrValOk kv.2 = true) → ps.length < fuel →
      parseAttrsTail fuel
        (tailJoin (", ".toList)
          (ps.map (fun kv => printStr kv.1 ++ (": ".toList ++ printVal kv.2)))
          ++ '\x7d' :: rest)
        = Option.some (ps, rest) := by
  intro ps
  induction ps with
  | nil =>
    intro rest fuel _ hf
    obtain ⟨f, rfl⟩ : ∃ f, fuel = f + 1 := ⟨fuel - 1, by omega⟩
    simp [tailJoin, parseAttrsTail]
  | cons kv ps' ih =>
    intro rest fuel hv hf
    obtain ⟨f, rfl⟩ : ∃ f, fuel = f + 1 := ⟨fuel - 1, by omega⟩
    have hf' : ps'.length < f := by
      simp only [List.length_cons] at hf
      omega
    simp only [List.map_cons, tailJoin_attr_cons, List.cons_append,
      List.append_assoc]
    rw [parseAttrsTail_comma]
    rw [show (printStr kv.1 ++ (": ".toList ++ (printVal kv.2
        ++ (tailJoin (", ".toList)
          (ps'.map (fun kv => printStr kv.1 ++ (": ".toList ++ printVal kv.2)))
          ++ '\x7d' :: rest))))
      = (printStr kv.1 ++ ": ".toList ++ printVal kv.2)
        ++ (tailJoin (", ".toList)
          (ps'.map (fun kv => printStr kv.1 ++ (": ".toList ++ printVal kv.2)))
          ++ '\x7d' :: rest) by simp]
    rw [parseAttrPair_print kv.1 kv.2 (hv kv (List.mem_cons_self _ _)) _
      (tailJoin_head_attr _ rest)]
    simp only [ih rest f (fun x hx => hv x (List.mem_cons_of_mem _ hx)) hf',
      Option.map_some']

theorem parseAttrs_cons (c : Char) (cs : List Char) (h : ¬c = '\x7d') :
    parseAttrs ('\x7b' :: c :: cs) =
      match parseAttrPair (c :: cs) with
      | Option.some (kv, rest2) =>
        (parseAttrsTail rest2.length rest2).map
          (fun p => (pyDictFromPairs (kv :: p.1), p.2))
      | Option.none => Option.none := by
  unfold parseAttrs
  split
  · rename_i r heq
    injection heq with h1 h2
    injection h2 with h3 h4
    exact absurd h3 h
  · rename_i r heq
    injection heq with h1 h2
    rw [h2]
  · rename_i hne
    exact absurd rfl (hne (c :: cs))

theorem parseAttrs_print (ps : List (String × PyVal))
    (hv : ∀ kv ∈ ps, attrValOk kv.2 = true)
    (hnd : (ps.map Prod.fst).Nodup) (rest : List Char) :
    parseAttrs (printAttrs ps ++ rest) = Option.some (ps, rest) := by
  cases ps with
  | nil => rfl
  | cons kv ps' =>
    unfold printAttrs
    simp only [List.map_cons]
    rw [joinSep_eq_tailJoin]
    rw [show (printStr kv.1 ++ ": ".toList ++ printVal kv.2)
      = '"' :: (escapeStr kv.1 ++ ['"'] ++ (": ".toList ++ printVal kv.2))
      by rw [show printStr kv.1 = '"' :: (escapeStr kv.1 ++ ['"']) from rfl]
         simp]
    simp only [List.cons_append, List.append_assoc, List.singleton_append,
      List.nil_append]
    rw [parseAttrs_cons '"' _ (by decide)]
    rw [show ('"' :: (escapeStr kv.1 ++ ('"' :: (": ".toList ++ (printVal kv.2
        ++ (tailJoin (", ".toList)
          (ps'.map (fun kv => printStr kv.1 ++ (": ".toList ++ printVal kv.2)))
          ++ '\x7d' :: rest))))))
      = (printStr kv.1 ++ ": ".toList ++ printVal kv.2)
        ++ (tailJoin (", ".toList)
          (ps'.map (fun kv => printStr kv.1 ++ (": ".toList ++ printVal kv.2)))
          ++ '\x7d' :: rest) by
      rw [show printStr kv.1 = '"' :: (escapeStr kv.1 ++ ['"']) from rfl]
      simp]
    rw [parseAttrPair_print kv.1 kv.2 (hv kv (List.mem_cons_self _ _)) _
      (tailJoin_head_attr _ rest)]
    have hlen : ps'.length
        < ((tailJoin (", ".toList)
          (ps'.map (fun kv => printStr kv.1 ++ (": ".toList ++ printVal kv.2)))
          ++ '\x7d' :: rest)).length := by
      have h1 := tailJoin_length_ge
        (ps'.map (fun kv => printStr kv.1 ++ (": ".toList ++ printVal kv.2)))
      simp only [List.length_map] at h1
      simp only [List.length_append, List.length_cons]
      omega
    have htail := parseAttrsTail_print ps' rest
      ((tailJoin (", ".toList)
        (ps'.map (fun kv => printStr kv.1 ++ (": ".toList ++ printVal kv.2)))
        ++ '\x7d' :: rest)).length
      (fun x hx => hv x (List.mem_cons_of_mem _ hx)) hlen
    simp only [htail, Option.map_some']
    show Option.some (pyDictFromPairs (kv :: ps'), rest) = _
    rw [pyDictFromPairs_id _ hnd]

theorem parseEntry_print (r : Record)
    (hnd : (r.attrs.map Prod.fst).Nodup)
    (hv : ∀ kv ∈ r.attrs, attrValOk kv.2 = true) (rest : List Char) :
    parseEntry (printEntry r ++ rest) = Option.some (r, rest) := by
  unfold printEntry
  rw [show (('[' :: (printStr r.data ++ ", ".toList ++ printStrList r.tags
      ++ ", ".toList ++ printAttrs r.attrs ++ [']'])) ++ rest)
    = '[' :: (printStr r.data ++ (',' :: ' ' :: (printStrList r.tags
      ++ (',' :: ' ' :: (printAttrs r.attrs ++ ']' :: rest))))) by
    rw [show (", ".toList : List Char) = [',', ' '] from rfl]
    simp]
  show (match parseJStr (printStr r.data ++ (',' :: ' ' :: (printStrList r.tags
      ++ (',' :: ' ' :: (printAttrs r.attrs ++ ']' :: rest))))) with
    | Option.some (d, r1) =>
      match r1 with
      | ',' :: ' ' :: r2 =>
        match parseStrList r2 with
        | Option.some (tg, r3) =>
          match r3 with
          | ',' :: ' ' :: r4 =>
            match parseAttrs r4 with
            | Option.some (at_, r5) =>
              match r5 with
              | ']' :: r6 => Option.some ((⟨d, tg, at_⟩ : Record), r6)
              | _ => Option.none
            | Option.none => Option.none
          | _ => Option.none
        | Option.none => Option.none
      | _ => Option.none
    | Option.none => Option.none) = Option.some (r, rest)
  rw [parseJStr_print]
  show (match parseStrList (printStrList r.tags
      ++ (',' :: ' ' :: (printAttrs r.attrs ++ ']' :: rest))) with
    | Option.some (tg, r3) =>
      match r3 with
      | ',' :: ' ' :: r4 =>
        match parseAttrs r4 with
        | Option.some (at_, r5) =>
          match r5 with
          | ']' :: r6 => Option.some ((⟨r.data, tg, at_⟩ : Record), r6)
          | _ => Option.none
        | Option.none => Option.none
      | _ => Option.none
    | Option.none => Option.none) = Option.some (r, rest)
  rw [parseStrList_print]
  show (match parseAttrs (printAttrs r.attrs ++ ']' :: rest) with
    | Option.some (at_, r5) =>
      match r5 with
      | ']' :: r6 => Option.some ((⟨r.data, r.tags, at_⟩ : Record), r6)
      | _ => Option.none
    | Option.none => Option.none) = Option.some (r, rest)
  rw [parseAttrs_print r.attrs hv hnd (']' :: rest)]
  rfl

theorem parseDataTail_comma (fuel : Nat) (rest : List Char) :
    parseDataTail (fuel + 1) (',' :: ' ' :: rest) =
      match parseEntry rest with
      | Option.some (r, rest2) =>
        (parseDataTail fuel rest2).map (fun p => (r :: p.1, p.2))
      | Option.none => Option.none := rfl

theorem parseDataTail_print :
    ∀ (data : List Record) (rest : List Char) (fuel : Nat),
      (∀ r ∈ data, (r.attrs.map Prod.fst).Nodup ∧
        ∀ kv ∈ r.attrs, attrValOk kv.2 = true) →
      data.length < fuel →
      parseDataTail fuel
        (tailJoin (", ".toList) (data.map printEntry) ++ ']' :: rest)
        = Option.some (data, rest) := by
  intro data
  induction data with
  | nil =>
    intro rest fuel _ hf
    obtain ⟨f, rfl⟩ : ∃ f, fuel = f + 1 := ⟨fuel - 1, by omega⟩
    simp [tailJoin, parseDataTail]
  | cons r data' ih =>
    intro rest fuel hwf hf
    obtain ⟨f, rfl⟩ : ∃ f, fuel = f + 1 := ⟨fuel - 1, by omega⟩
    have hf' : data'.length < f := by
      simp only [List.length_cons] at hf
      omega
    simp only [List.map_cons, tailJoin_attr_cons, List.cons_append,
      List.append_assoc]
    rw [parseDataTail_comma]
    rw [parseEntry_print r (hwf r (List.mem_cons_self _ _)).1
      (hwf r (List.mem_cons_self _ _)).2 _]
    simp only [ih rest f (fun x hx => hwf x (List.mem_cons_of_mem _ hx)) hf',
      Option.map_some']

theorem parseData_cons (c : Char) (cs : List Char) (h : ¬c = ']') :
    parseData ('[' :: c :: cs) =
      match parseEntry (c :: cs) with
      | Option.some (r, rest2) =>
        (parseDataTail rest2.length rest2).map (fun p => (r :: p.1, p.2))
      | Option.none => Option.none := by
  unfold parseData
  split
  · rename_i x heq
    injection heq with h1 h2
    injection h2 with h3 h4
    exact absurd h3 h
  · rename_i x heq
    injection heq with h1 h2
    rw [h2]
  · rename_i hne
    exact absurd rfl (hne (c :: cs))

theorem parseData_print (data : List Record)
    (hwf : ∀ r ∈ data, (r.attrs.map Prod.fst).Nodup ∧
      ∀ kv ∈ r.attrs, attrValOk kv.2 = true) (rest : List Char) :
    parseData (printData data ++ rest) = Option.some (data, rest) := by
  cases data with
  | nil => rfl
  | cons r data' =>
    unfold printData
    simp only [List.map_cons]
    rw [joinSep_eq_tailJoin]
    rw [show printEntry r = '[' :: (printStr r.data ++ ", ".toList
      ++ printStrList r.tags ++ ", ".toList ++ printAttrs r.attrs ++ [']'])
      from rfl]
    simp only [List.cons_append, List.append_assoc, List.singleton_append,
      List.nil_append]
    rw [parseData_cons '[' _ (by decide)]
    rw [show ('[' :: (printStr r.data ++ (", ".toList ++ (printStrList r.tags
        ++ (", ".toList ++ (printAttrs r.attrs
          ++ (']' :: (tailJoin (", ".toList) (data'.map printEntry)
            ++ ']' :: rest))))))))
      = printEntry r ++ (tailJoin (", ".toList) (data'.map printEntry)
          ++ ']' :: rest) by
      unfold printEntry
      simp]
    rw [parseEntry_print r (hwf r (List.mem_cons_self _ _)).1
      (hwf r (List.mem_cons_self _ _)).2 _]
    have hlen : data'.length
        < ((tailJoin (", ".toList) (data'.map printEntry)
          ++ ']' :: rest)).length := by
      have h1 := tailJoin_length_ge (data'.map printEntry)
      simp only [List.length_map] at h1
      simp only [List.length_append, List.length_cons]
      omega
    have htail := parseDataTail_print data' rest _
      (fun x hx => hwf x (List.mem_cons_of_mem _ hx)) hlen
    simp only [htail, Option.map_some']

theorem stripLeading_append :
    ∀ (pre rest : List Char), stripLeading pre (pre ++ rest)
      = Option.some rest := by
  intro pre
  induction pre with
  | nil => intro rest; rfl
  | cons p ps ih =>
    intro rest
    show stripLeading (p :: ps) (p :: (ps ++ rest)) = _
    unfold stripLeading
    rw [if_pos rfl]
    exact ih rest

theorem parseJBool_print (b : Bool) (rest : List Char) :
    parseJBool (printBool b ++ rest) = Option.some (b, rest) := by
  cases b <;> rfl

theorem openOfText_saveText (db : Database) (h : Wf db) :
    openOfText (Database.saveText db) = Option.some db := by
  obtain ⟨hnd, hrec⟩ := h
  show openOfText (jsonDumps db) = _
  unfold openOfText
  rw [show (jsonDumps db).toList
    = '\x7b' :: ("\"tags\": ".toList ++ printStrList db.tags
      ++ ", \"enforce_tags\": ".toList ++ printBool db.enforce_tags
      ++ ", \"backups_enabled\": ".toList ++ printBool db.backups_enabled
      ++ ", \"data\": ".toList ++ printData db.data
      ++ ", \"version\": ".toList ++ printStr (String.mk versionChars)
      ++ ['\x7d']) from rfl]
  rw [show ('\x7b' :: ("\"tags\": ".toList ++ printStrList db.tags
      ++ ", \"enforce_tags\": ".toList ++ printBool db.enforce_tags
      ++ ", \"backups_enabled\": ".toList ++ printBool db.backups_enabled
      ++ ", \"data\": ".toList ++ printData db.data
      ++ ", \"version\": ".toList ++ printStr (String.mk versionChars)
      ++ ['\x7d']))
    = "\x7b\"tags\": ".toList ++ (printStrList db.tags
      ++ (", \"enforce_tags\": ".toList ++ (printBool db.enforce_tags
      ++ (", \"backups_enabled\": ".toList ++ (printBool db.backups_enabled
      ++ (", \"data\": ".toList ++ (printData db.data
      ++ (", \"version\": ".toList ++ (printStr (String.mk versionChars)
      ++ ['\x7d']))))))))) by
    rw [show ("\x7b\"tags\": ".toList : List Char)
      = ['\x7b', '"', 't', 'a', 'g', 's', '"', ':', ' '] from rfl]
    rw [show ("\"tags\": ".toList : List Char)
      = ['"', 't', 'a', 'g', 's', '"', ':', ' '] from rfl]
    simp]
  simp only [stripLeading_append, parseStrList_print, parseJBool_print,
    parseData_print db.data hrec, parseJStr_print]
  rw [if_pos ⟨trivial, by decide⟩]
  rw [pySet_eq_self_of_nodup hnd]

/-- A sample well-formed document exercising every serializable value shape:
two vocabulary tags, one record carrying a tag, a string attribute with
characters that need escaping, a negative integer, a float and a boolean. -/
def dbC9 : Database :=
  { tags := ["t1", "t2"], enforce_tags := true, backups_enabled := false,
    data := [⟨"he said \"hi\"\n", ["t1"],
      [("k", PyVal.str "v"), ("n", PyVal.int (-5)),
       ("f", PyVal.float "1.5"), ("b", PyVal.bool true)]⟩] }

/-- C9: `save()` followed by `open()` reproduces an equivalent Document.  For
every well-formed document state (duplicate-free vocabulary as maintained by
the set semantics, duplicate-free attribute keys as maintained by the dict
semantics, scalar attribute values with canonical float tokens), parsing the
exact text that `save` writes yields the same document: the same vocabulary
set, the same `enforce_tags` and `backups_enabled` flags, and the same record
sequence in order, each record with equal data string, tag list and attrs in
insertion order. -/
theorem C9_save_open_roundtrip (db : Database) (h : Wf db) :
    openOfText (Database.saveText db) = Option.some db :=
  openOfText_saveText db h

theorem C9_witness :
    Wf dbC9 ∧ openOfText (Database.saveText dbC9) = Option.some dbC9 :=
  ⟨by decide, C9_save_open_roundtrip dbC9 (by decide)⟩
